import Mathlib

/-!
Verification of the Back-Tester configuration / validation core.

The definitions below are a shallow embedding of the Python sources:
  - `SRC/config.py`       : `_deep_merge`, `load_config`
  - `SRC/validation.py`   : `_require`, `validate_config`
  - `SRC/schema_registry.py` : `fields_for_statement`, `required_fields`,
    `validate_record`
  - `SRC/runner.py`       : the validation sweep, status decision and
    artifact-writing phase of `main`

Python values occurring in configuration trees, schemas and records are
modelled by the inductive type `YVal` (None, booleans, integers, strings,
lists and insertion-ordered string-keyed mappings).  Python dictionaries
are modelled as association lists in insertion order, with assignment
replacing in place and appending fresh keys at the end, exactly as CPython
dictionaries behave.  Python exceptions are modelled with `Except String`.
-/

set_option autoImplicit false

namespace BackTester

/-- A decoded YAML / Python value: scalars, lists and insertion-ordered
string-keyed mappings. -/
inductive YVal where
  | null : YVal
  | bool (b : Bool) : YVal
  | int (n : Int) : YVal
  | str (s : String) : YVal
  | list (xs : List YVal) : YVal
  | map (entries : List (String × YVal)) : YVal

/-- An insertion-ordered Python dictionary body. -/
abbrev Dict := List (String × YVal)

/-- Lookup of a key in a dictionary body (first occurrence wins, as keys of a
Python dictionary are unique). -/
def dictGet : Dict → String → Option YVal
  | [], _ => none
  | (k', v) :: rest, k => if k' = k then some v else dictGet rest k

/-- Python `key in d`. -/
def dictContains (d : Dict) (k : String) : Bool :=
  (dictGet d k).isSome

/-- Python dictionary assignment `d[k] = v`: replaces the value in place when
the key is present (keeping its position), appends the pair at the end
otherwise. -/
def dictSet : Dict → String → YVal → Dict
  | [], k, v => [(k, v)]
  | (k₀, v₀) :: rest, k, v =>
      if k₀ = k then (k, v) :: rest else (k₀, v₀) :: dictSet rest k v

mutual

/-- The loop body of `_deep_merge` (config.py lines 33-39): folds the
entries of `override` onto the clone of `base`, one assignment per key. -/
def mergeOnto : Dict → List (String × YVal) → Dict
  | base, [] => base
  | base, (k, v) :: rest =>
      mergeOnto (dictSet base k (mergeInto (dictGet base k) v)) rest

/-- The value stored for one key of `override` (config.py lines 34-39): when
the accumulated value and the override value are both mappings they are merged
recursively, in every other case the override value replaces the old one. -/
def mergeInto : Option YVal → YVal → YVal
  | some (YVal.map bm), YVal.map om => YVal.map (mergeOnto bm om)
  | _, v => v

end

/-- `_deep_merge(base, override)` from `SRC/config.py`: right-biased deep
merge, recursive exactly on mapping-meets-mapping.  The Python function works
on a shallow copy `dict(base)`, so the pure result is the fold of the
override entries onto `base`. -/
def deep_merge (base override : Dict) : Dict :=
  mergeOnto base override

/-- True exactly when an accumulated value and an override value are both
mappings, i.e. exactly when `_deep_merge` recurses instead of replacing. -/
def bothMaps : Option YVal → YVal → Bool
  | some (YVal.map _), YVal.map _ => true
  | _, _ => false

theorem mergeInto_of_not_bothMaps (o : Option YVal) (v : YVal)
    (h : bothMaps o v = false) : mergeInto o v = v := by
  cases o with
  | none => cases v <;> rfl
  | some w => cases w <;> cases v <;> simp_all [bothMaps, mergeInto]

theorem dictGet_eq_none (d : Dict) (k : String) (h : k ∉ d.map Prod.fst) :
    dictGet d k = none := by
  induction d with
  | nil => rfl
  | cons p rest ih =>
    obtain ⟨k₀, v₀⟩ := p
    simp only [List.map_cons, List.mem_cons] at h
    push_neg at h
    obtain ⟨h1, h2⟩ := h
    simp only [dictGet]
    rw [if_neg (fun hh => h1 hh.symm), ih h2]

theorem dictGet_dictSet_self (d : Dict) (k : String) (v : YVal) :
    dictGet (dictSet d k v) k = some v := by
  induction d with
  | nil => simp [dictSet, dictGet]
  | cons p rest ih =>
    obtain ⟨k₀, v₀⟩ := p
    by_cases h : k₀ = k
    · simp [dictSet, dictGet, h]
    · simp [dictSet, dictGet, h, ih]

theorem dictGet_dictSet_ne (d : Dict) (k k' : String) (v : YVal) (h : k' ≠ k) :
    dictGet (dictSet d k' v) k = dictGet d k := by
  induction d with
  | nil => simp [dictSet, dictGet, h]
  | cons p rest ih =>
    obtain ⟨k₀, v₀⟩ := p
    by_cases h0 : k₀ = k'
    · subst h0
      simp [dictSet, dictGet, h]
    · simp [dictSet, dictGet, h0, ih]

/-- Lookup characterization of the merge loop: for every key, the merged value
is the override entry (merged recursively when both sides are mappings), and
the base entry when the override has no such key.  The key list of a Python
dictionary is duplicate-free, whence the `Nodup` hypothesis. -/
theorem mergeOnto_get (ov : List (String × YVal)) (base : Dict)
    (h : (ov.map Prod.fst).Nodup) (k : String) :
    dictGet (mergeOnto base ov) k =
      match dictGet ov k with
      | none => dictGet base k
      | some v => some (mergeInto (dictGet base k) v) := by
  induction ov generalizing base with
  | nil => rfl
  | cons p rest ih =>
    obtain ⟨k', v'⟩ := p
    simp only [List.map_cons, List.nodup_cons] at h
    obtain ⟨hk', hrest⟩ := h
    rw [mergeOnto, ih _ hrest]
    by_cases hkk : k' = k
    · subst hkk
      have h1 : dictGet ((k', v') :: rest) k' = some v' := by simp [dictGet]
      have h2 : dictGet rest k' = none := dictGet_eq_none _ _ (by simpa using hk')
      rw [h1, h2, dictGet_dictSet_self]
    · have h1 : dictGet ((k', v') :: rest) k = dictGet rest k := by
        simp [dictGet, hkk]
      rw [h1, dictGet_dictSet_ne _ _ _ _ hkk]

/-- C1: the deep merge used by configuration composition is right-biased and
recursive exactly on mapping-meets-mapping: for each key of `override`, if
both the accumulated value and the override value at that key are mappings,
the result at that key is their recursive merge; in every other case the
override value wholly replaces the accumulated value; keys present only in
`base` are preserved. -/
theorem deep_merge_right_biased_recursive_on_maps (base ov : Dict)
    (h : (ov.map Prod.fst).Nodup) (k : String) :
    (dictGet ov k = none → dictGet (deep_merge base ov) k = dictGet base k) ∧
    (∀ bm om, dictGet base k = some (YVal.map bm) →
      dictGet ov k = some (YVal.map om) →
      dictGet (deep_merge base ov) k = some (YVal.map (deep_merge bm om))) ∧
    (∀ v, dictGet ov k = some v → bothMaps (dictGet base k) v = false →
      dictGet (deep_merge base ov) k = some v) := by
  have key := mergeOnto_get ov base h k
  refine ⟨?_, ?_, ?_⟩
  · intro hnone
    rw [deep_merge, key, hnone]
  · intro bm om hbase hov
    rw [deep_merge, key, hov, hbase]
    rfl
  · intro v hov hnb
    rw [deep_merge, key, hov]
    exact congrArg some (mergeInto_of_not_bothMaps _ _ hnb)

/-- Witness for C1, instantiating the merge-recursion example of the spec:
merging `a: (x: 1, y: 2)` with override `a: (y: 3)` yields
`a: (x: 1, y: 3)`. -/
theorem deep_merge_right_biased_recursive_on_maps_witness :
    ([("a", YVal.map [("y", YVal.int 3)])].map Prod.fst).Nodup ∧
    dictGet (deep_merge [("a", YVal.map [("x", YVal.int 1), ("y", YVal.int 2)])]
        [("a", YVal.map [("y", YVal.int 3)])]) "a" =
      some (YVal.map (deep_merge [("x", YVal.int 1), ("y", YVal.int 2)]
        [("y", YVal.int 3)])) ∧
    deep_merge [("x", YVal.int 1), ("y", YVal.int 2)] [("y", YVal.int 3)] =
      [("x", YVal.int 1), ("y", YVal.int 3)] := by
  refine ⟨by decide, ?_, by rfl⟩
  exact (deep_merge_right_biased_recursive_on_maps
    [("a", YVal.map [("x", YVal.int 1), ("y", YVal.int 2)])]
    [("a", YVal.map [("y", YVal.int 3)])] (by decide) "a").2.1
    [("x", YVal.int 1), ("y", YVal.int 2)] [("y", YVal.int 3)] (by rfl) (by rfl)

/-- The four configuration source locations fixed by the three selector
strings (config.py lines 43-48), as paths relative to the repository root, in
load order: universal execution default, execution-specific override,
content-specific addition, universe-specific addition. -/
def sourcePaths (univ content execution : String) : List String :=
  ["configs/execution/Default.yaml",
   "configs/execution/" ++ execution ++ ".yaml",
   "configs/content/" ++ content ++ ".yaml",
   "configs/universes/" ++ univ ++ ".yaml"]

/-- `load_config` from `SRC/config.py`, with the file system abstracted: the
four YAML files named by `sourcePaths` are given as the already-decoded
mappings `d1 d2 d3 d4` (`_read_yaml` raises before any merging unless each
file exists and decodes to a mapping).  After merging, Python runs
`merged.setdefault("_meta", {})` and then assigns the four metadata entries
into that sub-mapping in place; when a source file put a non-mapping value
under `_meta`, the item assignment raises `TypeError`, modelled as `none`. -/
def load_config (univ content execution : String) (d1 d2 d3 d4 : Dict) :
    Option Dict :=
  let merged := deep_merge (deep_merge (deep_merge (deep_merge [] d1) d2) d3) d4
  match (dictGet merged "_meta").getD (YVal.map []) with
  | YVal.map m0 =>
      let m1 := dictSet m0 "universe" (YVal.str univ)
      let m2 := dictSet m1 "content" (YVal.str content)
      let m3 := dictSet m2 "execution" (YVal.str execution)
      let m4 := dictSet m3 "sources"
        (YVal.list ((sourcePaths univ content execution).map YVal.str))
      some (dictSet merged "_meta" (YVal.map m4))
  | _ => none

/-- C3: whatever the four source files contain, the composed configuration's
metadata equals the selector inputs, and the source list records the four
source identifiers in order; the metadata block is written after all merging,
so no source can forge or suppress those values. -/
theorem load_config_meta_immune (univ content execution : String)
    (d1 d2 d3 d4 : Dict) (cfg : Dict)
    (h : load_config univ content execution d1 d2 d3 d4 = some cfg) :
    ∃ m, dictGet cfg "_meta" = some (YVal.map m) ∧
      dictGet m "universe" = some (YVal.str univ) ∧
      dictGet m "content" = some (YVal.str content) ∧
      dictGet m "execution" = some (YVal.str execution) ∧
      dictGet m "sources" =
        some (YVal.list ((sourcePaths univ content execution).map YVal.str)) := by
  simp only [load_config] at h
  split at h
  case _ m0 heq =>
    rw [Option.some_inj] at h
    subst h
    refine ⟨_, dictGet_dictSet_self _ _ _, ?_, ?_, ?_, dictGet_dictSet_self _ _ _⟩
    · rw [dictGet_dictSet_ne _ _ _ _ (by decide),
        dictGet_dictSet_ne _ _ _ _ (by decide),
        dictGet_dictSet_ne _ _ _ _ (by decide),
        dictGet_dictSet_self]
    · rw [dictGet_dictSet_ne _ _ _ _ (by decide),
        dictGet_dictSet_ne _ _ _ _ (by decide),
        dictGet_dictSet_self]
    · rw [dictGet_dictSet_ne _ _ _ _ (by decide), dictGet_dictSet_self]
  case _ => exact absurd h (by simp)

/-- Witness for C3 at empty source files and concrete selectors. -/
theorem load_config_meta_immune_witness :
    ∃ cfg, load_config "u1" "c1" "e1" [] [] [] [] = some cfg ∧
      ∃ m, dictGet cfg "_meta" = some (YVal.map m) ∧
        dictGet m "universe" = some (YVal.str "u1") ∧
        dictGet m "content" = some (YVal.str "c1") ∧
        dictGet m "execution" = some (YVal.str "e1") ∧
        dictGet m "sources" =
          some (YVal.list ((sourcePaths "u1" "c1" "e1").map YVal.str)) := by
  refine ⟨_, rfl, ?_⟩
  exact load_config_meta_immune "u1" "c1" "e1" [] [] [] [] _ rfl

/-- Python `path.split(".")` for the dotted paths used by `_require`,
computed over the character list of the path. -/
def splitDots (s : String) : List String :=
  (s.data.splitOn '.').map (fun cs => String.mk cs)

/-- The traversal loop of `_require` (validation.py lines 15-19): walk the
remaining path segments, failing with the full dotted path as soon as a
segment is absent or the current value is not a mapping. -/
def requireGo (path : String) : YVal → List String → Except String YVal
  | current, [] => Except.ok current
  | current, part :: rest =>
      match current with
      | YVal.map m =>
          match dictGet m part with
          | some v => requireGo path v rest
          | none => Except.error ("Missing required config key: " ++ path)
      | _ => Except.error ("Missing required config key: " ++ path)

/-- `_require` from `SRC/validation.py`: fetch the value at a dotted path in
the configuration tree, raising `ConfigError` when any segment is missing. -/
def _require (config : Dict) (path : String) : Except String YVal :=
  requireGo path (YVal.map config) (splitDots path)

/-- Python membership of a value in a set of string literals, as used by the
enum checks of `validate_config`: true exactly when the value is one of the
given strings. -/
def isStrIn (v : YVal) (options : List String) : Bool :=
  match v with
  | YVal.str s => options.contains s
  | _ => false

/-- Python `not s.strip()` on a string `s`: the stripped string is empty
exactly when every character of `s` is whitespace. -/
def isBlank (s : String) : Bool := s.data.all Char.isWhitespace

/-- One element of `universe.symbols` is malformed (validation.py line 51):
`not isinstance(s, str) or not s.strip()`. -/
def badSymbol : YVal → Bool
  | YVal.str s => isBlank s
  | _ => true

/-- The `universe.symbols` checks of `validate_config` (validation.py lines
48-53): the value must be a non-empty list, and the list of individually
malformed elements must be empty, otherwise one combined error is raised. -/
def checkSymbols (symbols : YVal) : Except String Unit :=
  match symbols with
  | YVal.list syms =>
      if syms.length = 0 then
        Except.error "universe.symbols must be a non-empty list"
      else
        let bad := syms.filter badSymbol
        if bad.isEmpty then Except.ok ()
        else Except.error "universe.symbols must contain only non-empty strings"
  | _ => Except.error "universe.symbols must be a non-empty list"

/-- `validate_config` from `SRC/validation.py`: fail-fast structural checks
over the composed configuration tree, in source order.  Error messages are
abbreviated to fixed strings. -/
def validate_config (config : Dict) : Except String Unit :=
  match _require config "execution" with
  | Except.error e => Except.error e
  | Except.ok _ =>
  match _require config "universe" with
  | Except.error e => Except.error e
  | Except.ok _ =>
  match _require config "content" with
  | Except.error e => Except.error e
  | Except.ok _ =>
  match _require config "execution.logging" with
  | Except.error e => Except.error e
  | Except.ok logging =>
  if ¬ isStrIn logging ["minimal", "maximal"] then
    Except.error "Invalid logging level"
  else
  match _require config "execution.data_mode" with
  | Except.error e => Except.error e
  | Except.ok data_mode =>
  if ¬ isStrIn data_mode ["dummy", "production"] then
    Except.error "Invalid data mode"
  else
  match _require config "execution.run_scale" with
  | Except.error e => Except.error e
  | Except.ok run_scale =>
  if ¬ isStrIn run_scale ["full", "smoke", "sample"] then
    Except.error "Invalid run scale"
  else
  match _require config "execution.error_policy" with
  | Except.error e => Except.error e
  | Except.ok error_policy =>
  if ¬ isStrIn error_policy ["fail_fast", "fail", "skip", "best_effort"] then
    Except.error "Invalid error policy"
  else
  match _require config "universe.symbols" with
  | Except.error e => Except.error e
  | Except.ok symbols =>
  match checkSymbols symbols with
  | Except.error e => Except.error e
  | Except.ok _ =>
  match _require config "content.protocol" with
  | Except.error e => Except.error e
  | Except.ok protocol =>
  if ¬ isStrIn protocol ["fundamentals", "relative_valuations", "none"] then
    Except.error "Invalid protocol"
  else Except.ok ()

/-- When `validate_config` succeeds, the `universe.symbols` value was looked
up and passed the symbols check. -/
theorem validate_config_ok_symbols (config : Dict)
    (h : validate_config config = Except.ok ()) :
    ∃ v, _require config "universe.symbols" = Except.ok v ∧
      checkSymbols v = Except.ok () := by
  unfold validate_config at h
  repeat' split at h
  any_goals exact Except.noConfusion h
  exact ⟨_, by assumption, by assumption⟩

theorem badSymbol_eq_false_iff (s : YVal) :
    badSymbol s = false ↔ ∃ t, s = YVal.str t ∧ isBlank t = false := by
  cases s <;> simp [badSymbol]

theorem checkSymbols_ok_iff (v : YVal) :
    checkSymbols v = Except.ok () ↔
      ∃ xs, v = YVal.list xs ∧ xs ≠ [] ∧ ∀ s ∈ xs, badSymbol s = false := by
  cases v with
  | list syms =>
    simp only [checkSymbols]
    by_cases hlen : syms.length = 0
    · rw [if_pos hlen]
      simp only [List.length_eq_zero] at hlen
      subst hlen
      simp
    · rw [if_neg hlen]
      by_cases hbad : (syms.filter badSymbol).isEmpty
      · simp only [if_pos hbad]
        rw [List.isEmpty_iff, List.filter_eq_nil_iff] at hbad
        constructor
        · intro _
          exact ⟨syms, rfl, by simpa using hlen, fun s hs => by
            simpa using hbad s hs⟩
        · intro _; trivial
      · simp only [if_neg hbad]
        constructor
        · intro h; exact Except.noConfusion h
        · rintro ⟨xs, hxs, -, hall⟩
          cases hxs
          rw [List.isEmpty_iff, List.filter_eq_nil_iff] at hbad
          exact absurd (fun s hs => by simpa using hall s hs) hbad
  | null => simp [checkSymbols]
  | bool b => simp [checkSymbols]
  | int n => simp [checkSymbols]
  | str t => simp [checkSymbols]
  | map m => simp [checkSymbols]

/-- A configuration whose execution and content blocks pass every enum check,
with a parametric `universe.symbols` list, exercising the symbols check. -/
def symbolsConfig (symbols : List YVal) : Dict :=
  [("execution", YVal.map
      [("logging", YVal.str "minimal"),
       ("data_mode", YVal.str "dummy"),
       ("run_scale", YVal.str "smoke"),
       ("error_policy", YVal.str "fail_fast")]),
   ("universe", YVal.map [("symbols", YVal.list symbols)]),
   ("content", YVal.map [("protocol", YVal.str "fundamentals")])]

/-- C7 counterexample: `universe.symbols = ["AAPL", "  "]` is a non-empty
sequence of non-empty strings, yet `validate_config` raises, because the code
also rejects strings that are empty after stripping whitespace. -/
theorem checkSymbols_nonempty_strings_counterexample :
    ([YVal.str "AAPL", YVal.str "  "] ≠ ([] : List YVal)) ∧
    (∀ s ∈ [YVal.str "AAPL", YVal.str "  "], ∃ t, s = YVal.str t ∧ t ≠ "") ∧
    validate_config (symbolsConfig [YVal.str "AAPL", YVal.str "  "]) =
      Except.error "universe.symbols must contain only non-empty strings" := by
  refine ⟨by simp, ?_, by rfl⟩
  intro s hs
  simp only [List.mem_cons, List.not_mem_nil, or_false] at hs
  rcases hs with rfl | rfl
  · exact ⟨"AAPL", rfl, by decide⟩
  · exact ⟨"  ", rfl, by decide⟩

/-- C7 (amended): the `universe.symbols` check of `validate_config` passes
exactly when the value is a non-empty list whose elements are all strings
that are non-empty after stripping whitespace; every element is individually
checked and all element violations produce the single combined message; the
spec examples `[]`, `["AAPL", ""]` and `["AAPL", "MSFT"]` behave as stated. -/
theorem checkSymbols_exact_rule (v : YVal) :
    (checkSymbols v = Except.ok () ↔
      ∃ xs, v = YVal.list xs ∧ xs ≠ [] ∧
        ∀ s ∈ xs, ∃ t, s = YVal.str t ∧ isBlank t = false) ∧
    (∀ xs, v = YVal.list xs → xs ≠ [] → (∃ s ∈ xs, badSymbol s = true) →
      checkSymbols v =
        Except.error "universe.symbols must contain only non-empty strings") ∧
    validate_config (symbolsConfig []) =
      Except.error "universe.symbols must be a non-empty list" ∧
    validate_config (symbolsConfig [YVal.str "AAPL", YVal.str ""]) =
      Except.error "universe.symbols must contain only non-empty strings" ∧
    validate_config (symbolsConfig [YVal.str "AAPL", YVal.str "MSFT"]) =
      Except.ok () := by
  refine ⟨?_, ?_, by rfl, by rfl, by rfl⟩
  · rw [checkSymbols_ok_iff]
    constructor
    · rintro ⟨xs, rfl, hne, hall⟩
      exact ⟨xs, rfl, hne, fun s hs => (badSymbol_eq_false_iff s).mp (hall s hs)⟩
    · rintro ⟨xs, rfl, hne, hall⟩
      exact ⟨xs, rfl, hne, fun s hs => (badSymbol_eq_false_iff s).mpr (hall s hs)⟩
  · rintro xs rfl hne ⟨s, hs, hbad⟩
    simp only [checkSymbols]
    rw [if_neg (by simpa using hne)]
    have hmem : s ∈ xs.filter badSymbol := List.mem_filter.mpr ⟨hs, hbad⟩
    have hne2 : (xs.filter badSymbol).isEmpty = false := by
      cases hh : (xs.filter badSymbol).isEmpty
      · rfl
      · rw [List.isEmpty_iff] at hh
        rw [hh] at hmem
        exact absurd hmem (List.not_mem_nil s)
    rw [hne2]
    rfl

/-- Witness for C7 (amended) at the concrete list `["AAPL", "MSFT"]`. -/
theorem checkSymbols_exact_rule_witness :
    checkSymbols (YVal.list [YVal.str "AAPL", YVal.str "MSFT"]) =
      Except.ok () := by
  refine ((checkSymbols_exact_rule
    (YVal.list [YVal.str "AAPL", YVal.str "MSFT"])).1).mpr ?_
  refine ⟨[YVal.str "AAPL", YVal.str "MSFT"], rfl, by simp, ?_⟩
  intro s hs
  simp only [List.mem_cons, List.not_mem_nil, or_false] at hs
  rcases hs with rfl | rfl
  · exact ⟨"AAPL", rfl, by decide⟩
  · exact ⟨"MSFT", rfl, by decide⟩

/-- C10: a configuration whose `universe.symbols` value is a list containing
an element that is not a string, or that is empty after stripping whitespace,
never passes `validate_config`. -/
theorem validate_config_rejects_blank_symbols (config : Dict) (xs : List YVal)
    (hsy : _require config "universe.symbols" = Except.ok (YVal.list xs))
    (hbad : ∃ s ∈ xs, badSymbol s = true) :
    ∃ e, validate_config config = Except.error e := by
  cases hv : validate_config config with
  | error e => exact ⟨e, rfl⟩
  | ok u =>
    cases u
    obtain ⟨v, hv2, hck⟩ := validate_config_ok_symbols config hv
    rw [hsy] at hv2
    obtain rfl : YVal.list xs = v := by injection hv2
    obtain ⟨xs', hxs', -, hall⟩ := (checkSymbols_ok_iff _).mp hck
    obtain rfl : xs = xs' := by injection hxs'
    obtain ⟨s, hs, hbad⟩ := hbad
    rw [hall s hs] at hbad
    exact Bool.noConfusion hbad

/-- Witness for C10: `["AAPL", "  "]` contains a whitespace-only symbol and
the full configuration validation rejects it. -/
theorem validate_config_rejects_blank_symbols_witness :
    ∃ e, validate_config (symbolsConfig [YVal.str "AAPL", YVal.str "  "]) =
      Except.error e :=
  validate_config_rejects_blank_symbols _ [YVal.str "AAPL", YVal.str "  "]
    (by rfl) ⟨YVal.str "  ", by simp, by decide⟩

/-- Lexicographic code-point comparison of character lists, agreeing with
Python string comparison as used by `sorted`. -/
def charListLe : List Char → List Char → Bool
  | [], _ => true
  | _ :: _, [] => false
  | c :: cs, d :: ds =>
      if c.toNat < d.toNat then true
      else if d.toNat < c.toNat then false
      else charListLe cs ds

/-- Python `a <= b` on strings: lexicographic on code points. -/
def strLe (a b : String) : Bool := charListLe a.data b.data

theorem charListLe_cons_iff (a b : Char) (as bs : List Char) :
    charListLe (a :: as) (b :: bs) = true ↔
      a.toNat < b.toNat ∨ (a.toNat = b.toNat ∧ charListLe as bs = true) := by
  simp only [charListLe]
  split_ifs with h1 h2
  · simp [h1]
  · simp only [Bool.false_eq_true, false_iff]
    rintro (h | ⟨he, -⟩) <;> omega
  · have : a.toNat = b.toNat := by omega
    simp [this]

theorem charListLe_total : ∀ a b : List Char,
    charListLe a b = true ∨ charListLe b a = true
  | [], _ => Or.inl rfl
  | _ :: _, [] => Or.inr rfl
  | a :: as, b :: bs => by
      rw [charListLe_cons_iff, charListLe_cons_iff]
      rcases Nat.lt_trichotomy a.toNat b.toNat with h | h | h
      · exact Or.inl (Or.inl h)
      · rcases charListLe_total as bs with h2 | h2
        · exact Or.inl (Or.inr ⟨h, h2⟩)
        · exact Or.inr (Or.inr ⟨h.symm, h2⟩)
      · exact Or.inr (Or.inl h)

theorem charListLe_trans : ∀ a b c : List Char,
    charListLe a b = true → charListLe b c = true → charListLe a c = true
  | [], _, _, _, _ => rfl
  | _ :: _, [], _, h, _ => by simp [charListLe] at h
  | _ :: _, _ :: _, [], _, h => by simp [charListLe] at h
  | a :: as, b :: bs, c :: cs, h1, h2 => by
      rw [charListLe_cons_iff] at h1 h2 ⊢
      rcases h1 with h1 | ⟨h1e, h1r⟩
      · rcases h2 with h2 | ⟨h2e, _⟩
        · exact Or.inl (by omega)
        · exact Or.inl (by omega)
      · rcases h2 with h2 | ⟨h2e, h2r⟩
        · exact Or.inl (by omega)
        · exact Or.inr ⟨by omega, charListLe_trans as bs cs h1r h2r⟩

theorem strLe_total (a b : String) : strLe a b = true ∨ strLe b a = true :=
  charListLe_total a.data b.data

theorem strLe_trans (a b c : String) (h1 : strLe a b = true)
    (h2 : strLe b c = true) : strLe a c = true :=
  charListLe_trans a.data b.data c.data h1 h2

/-- One step of Python `sorted`: insert a string into a sorted list. -/
def insertSorted (s : String) : List String → List String
  | [] => [s]
  | t :: rest => if strLe s t then s :: t :: rest else t :: insertSorted s rest

/-- Python `sorted` on a list of strings, as insertion sort over `strLe`. -/
def sortStrings : List String → List String
  | [] => []
  | s :: rest => insertSorted s (sortStrings rest)

theorem mem_insertSorted (s a : String) :
    ∀ l : List String, a ∈ insertSorted s l ↔ a = s ∨ a ∈ l
  | [] => by simp [insertSorted]
  | t :: rest => by
      simp only [insertSorted]
      split
      · simp [List.mem_cons]
      · rw [List.mem_cons, mem_insertSorted s a rest, List.mem_cons]
        tauto

theorem sorted_insertSorted (s : String) :
    ∀ l : List String, l.Pairwise (fun a b => strLe a b = true) →
      (insertSorted s l).Pairwise (fun a b => strLe a b = true)
  | [], _ => by simp [insertSorted]
  | t :: rest, h => by
      obtain ⟨ht, hrest⟩ := List.pairwise_cons.mp h
      simp only [insertSorted]
      split
      next hst =>
        refine List.pairwise_cons.mpr ⟨?_, h⟩
        intro b hb
        rcases List.mem_cons.mp hb with rfl | hb2
        · exact hst
        · exact strLe_trans _ _ _ hst (ht b hb2)
      next hst =>
        refine List.pairwise_cons.mpr ⟨?_, sorted_insertSorted s rest hrest⟩
        intro b hb
        rcases (mem_insertSorted s b rest).mp hb with rfl | hb2
        · rcases strLe_total b t with h1 | h1
          · exact absurd h1 hst
          · exact h1
        · exact ht b hb2

theorem nodup_insertSorted (s : String) :
    ∀ l : List String, l.Nodup → s ∉ l → (insertSorted s l).Nodup
  | [], _, _ => by simp [insertSorted]
  | t :: rest, h, hs => by
      obtain ⟨ht, hrest⟩ := List.nodup_cons.mp h
      simp only [insertSorted]
      split
      · exact List.nodup_cons.mpr ⟨by simpa using hs, h⟩
      · refine List.nodup_cons.mpr ⟨?_, nodup_insertSorted s rest hrest
          (fun hm => hs (List.mem_cons.mpr (Or.inr hm)))⟩
        intro hm
        rcases (mem_insertSorted s t rest).mp hm with rfl | hm2
        · exact hs (List.mem_cons.mpr (Or.inl rfl))
        · exact ht hm2

theorem mem_sortStrings (a : String) :
    ∀ l : List String, a ∈ sortStrings l ↔ a ∈ l
  | [] => Iff.rfl
  | s :: rest => by
      simp only [sortStrings]
      rw [mem_insertSorted, mem_sortStrings a rest, List.mem_cons]

theorem sorted_sortStrings :
    ∀ l : List String, (sortStrings l).Pairwise (fun a b => strLe a b = true)
  | [] => List.Pairwise.nil
  | s :: rest => sorted_insertSorted s (sortStrings rest) (sorted_sortStrings rest)

theorem nodup_sortStrings :
    ∀ l : List String, l.Nodup → (sortStrings l).Nodup
  | [], _ => List.nodup_nil
  | s :: rest, h => by
      obtain ⟨hs, hrest⟩ := List.nodup_cons.mp h
      exact nodup_insertSorted s (sortStrings rest) (nodup_sortStrings rest hrest)
        (fun hm => hs ((mem_sortStrings s rest).mp hm))

/-- The strings of a Python list value: `some` exactly when every element is
a string. -/
def asStrings : List YVal → Option (List String)
  | [] => some []
  | v :: rest =>
      match v with
      | YVal.str s =>
          match asStrings rest with
          | some ss => some (s :: ss)
          | none => none
      | _ => none

/-- Whether a value may enter a Python set: scalars are hashable, lists and
mappings raise `TypeError` when hashed. -/
def isHashable : YVal → Bool
  | YVal.list _ => false
  | YVal.map _ => false
  | _ => true

/-- The equality key of a hashable Python value: booleans compare equal to
the integers 0 and 1 (`True == 1` in Python), strings and `None` only to
themselves. -/
def pyKey : YVal → Option (Int ⊕ String ⊕ Unit)
  | YVal.int n => some (Sum.inl n)
  | YVal.bool b => some (Sum.inl (if b then 1 else 0))
  | YVal.str s => some (Sum.inr (Sum.inl s))
  | YVal.null => some (Sum.inr (Sum.inr ()))
  | _ => none

/-- Python `==` as used by set membership, on hashable values (unhashable
values never reach a set; the function is false on them). -/
def pyEq (a b : YVal) : Bool :=
  match pyKey a, pyKey b with
  | some x, some y => decide (x = y)
  | _, _ => false

/-- Adding one element to a Python set under construction: the
first-inserted representative of each equality class is kept, as in
CPython. -/
def pyInsertNew (acc : List YVal) (x : YVal) : List YVal :=
  if acc.any (fun y => pyEq y x) then acc else acc ++ [x]

/-- `set(xs)` built by inserting the elements of `xs` in order.  Python set
iteration order is hash-table order and unobservable here (the one consumer
sorts); insertion order is a deterministic representative. -/
def pySetList (xs : List YVal) : List YVal :=
  xs.foldl pyInsertNew []

/-- Python `f in known` for a set `known` of strings: true exactly when `f`
is one of those strings (a non-string hashable is simply not a member). -/
def strSetMem : YVal → List String → Bool
  | YVal.str s, known => known.contains s
  | _, _ => false

/-- The numeric value Python uses to compare integers and booleans. -/
def numVal : YVal → Option Int
  | YVal.int n => some n
  | YVal.bool b => some (if b then 1 else 0)
  | _ => none

/-- Stable insertion of a numeric value into a sorted list (ties keep the
existing element first; a set never holds ties). -/
def insertNum (x : YVal) : List YVal → List YVal
  | [] => [x]
  | t :: rest =>
      if (numVal x).getD 0 < (numVal t).getD 0 then x :: t :: rest
      else t :: insertNum x rest

/-- Ascending sort of a list of integer/boolean values. -/
def sortNums : List YVal → List YVal
  | [] => []
  | x :: rest => insertNum x (sortNums rest)

/-- Python `sorted` on the values of a required-field set: all-string input
sorts lexicographically; zero or one element needs no comparison and always
succeeds; two or more integers/booleans sort numerically; any other
combination makes some comparison raise `TypeError` (mixed categories, or
`None` compared with anything). -/
def sortedPy (xs : List YVal) : Except String (List YVal) :=
  match asStrings xs with
  | some ss => Except.ok ((sortStrings ss).map YVal.str)
  | none =>
      if xs.length ≤ 1 then Except.ok xs
      else if xs.all (fun v => (numVal v).isSome) then Except.ok (sortNums xs)
      else Except.error "TypeError: unorderable types in sorted"

/-- Python `k in record` for a string-keyed record and a required-field
value `k`: a non-string value is never among the string keys. -/
def keyIn (entries : Dict) : YVal → Bool
  | YVal.str s => dictContains entries s
  | _ => false

/-- `SchemaRegistry.fields_for_statement` (schema_registry.py lines 40-49):
the known field names of a statement are the keys of its `fields` mapping;
unknown statements and malformed field definitions raise.  A `statements`
value or statement entry that is not a mapping makes Python raise
(`KeyError`/`AttributeError`), likewise modelled as errors. -/
def fields_for_statement (schema : Dict) (statement : String) :
    Except String (List String) :=
  match dictGet schema "statements" with
  | some (YVal.map sts) =>
      match dictGet sts statement with
      | none => Except.error "Unknown statement"
      | some (YVal.map stm) =>
          match dictGet stm "fields" with
          | some (YVal.map fm) => Except.ok (fm.map Prod.fst)
          | _ => Except.error "Statement must contain a fields mapping"
      | some _ => Except.error "TypeError: statement entry is not a mapping"
  | _ => Except.error "KeyError or TypeError: statements"

/-- `SchemaRegistry.required_fields` (schema_registry.py lines 51-73): the
set union of the profile's `common` required-field list and its
statement-specific list, with the schema-integrity guard re-run on every
call.  Faithful to the source: elements of either list may be any hashable
value (an unhashable element makes `set()` raise `TypeError`); only the
statement-specific list is checked against the statement's known fields, so
a non-string element of `common` flows through into the returned set. -/
def required_fields (schema : Dict) (profile statement : String) :
    Except String (List YVal) :=
  match dictGet schema "requirements" with
  | some (YVal.map reqsM) =>
      match dictGet reqsM profile with
      | none => Except.error "Unknown requirement profile"
      | some (YVal.map rm) =>
          match (dictGet rm "common").getD (YVal.list []),
                (dictGet rm statement).getD (YVal.list []) with
          | YVal.list cvs, YVal.list svs =>
              if (cvs ++ svs).all isHashable then
                match fields_for_statement schema statement with
                | Except.error e => Except.error e
                | Except.ok known =>
                    if (svs.filter (fun f => !(strSetMem f known))).isEmpty then
                      Except.ok (pySetList (cvs ++ svs))
                    else Except.error "Profile requires unknown fields"
              else Except.error "TypeError: unhashable type in set union"
          | _, _ => Except.error "Requirements for profile must be lists"
      | some _ => Except.error "TypeError: profile entry is not a mapping"
  | _ => Except.error "KeyError or TypeError: requirements"

/-- `SchemaRegistry.validate_record` (schema_registry.py lines 75-81): the
sorted list of required field values absent from the record's keys; fails
first when the record is not a mapping. -/
def validate_record (schema : Dict) (profile statement : String)
    (record : YVal) : Except String (List YVal) :=
  match record with
  | YVal.map entries =>
      match required_fields schema profile statement with
      | Except.error e => Except.error e
      | Except.ok required =>
          match sortedPy required with
          | Except.error e => Except.error e
          | Except.ok sortedReq =>
              Except.ok (sortedReq.filter (fun k => !(keyIn entries k)))
  | _ => Except.error "Record must be a dict"

theorem filter_bnot_isEmpty_iff {α : Type} (p : α → Bool) (l : List α) :
    (l.filter (fun a => !(p a))).isEmpty = true ↔ ∀ a ∈ l, p a = true := by
  rw [List.isEmpty_iff, List.filter_eq_nil_iff]
  constructor
  · intro h a ha
    simpa using h a ha
  · intro h a ha
    simp [h a ha]

/-- Anatomy of every successful `required_fields` call: the requirement
lists exist, all their elements are hashable, the statement's known fields
resolved, every statement-specific required field is known, and the result
is the set of the concatenated lists. -/
theorem required_fields_ok_shape (schema : Dict) (profile statement : String)
    (l : List YVal)
    (h : required_fields schema profile statement = Except.ok l) :
    ∃ reqsM rm cvs svs known,
      dictGet schema "requirements" = some (YVal.map reqsM) ∧
      dictGet reqsM profile = some (YVal.map rm) ∧
      (dictGet rm "common").getD (YVal.list []) = YVal.list cvs ∧
      (dictGet rm statement).getD (YVal.list []) = YVal.list svs ∧
      (cvs ++ svs).all isHashable = true ∧
      fields_for_statement schema statement = Except.ok known ∧
      (∀ f ∈ svs, strSetMem f known = true) ∧
      l = pySetList (cvs ++ svs) := by
  unfold required_fields at h
  repeat' split at h
  any_goals exact Except.noConfusion h
  injection h with h2
  exact ⟨_, _, _, _, _, by assumption, by assumption, by assumption,
    by assumption, by assumption, by assumption,
    (filter_bnot_isEmpty_iff _ _).mp (by assumption), h2.symm⟩

theorem pyEq_iff (a b : YVal) :
    pyEq a b = true ↔ ∃ x, pyKey a = some x ∧ pyKey b = some x := by
  unfold pyEq
  cases ha : pyKey a <;> cases hb : pyKey b <;> simp
  exact eq_comm

theorem pyEq_trans {a b c : YVal} (h1 : pyEq a b = true)
    (h2 : pyEq b c = true) : pyEq a c = true := by
  obtain ⟨x, hax, hbx⟩ := (pyEq_iff a b).mp h1
  obtain ⟨y, hby, hcy⟩ := (pyEq_iff b c).mp h2
  rw [hbx] at hby
  injection hby with hby
  subst hby
  exact (pyEq_iff a c).mpr ⟨x, hax, hcy⟩

theorem pyEq_str (s t : String) :
    pyEq (YVal.str s) (YVal.str t) = true ↔ s = t := by
  rw [pyEq_iff]
  simp [pyKey]
  exact eq_comm

/-- Membership up to Python equality is preserved by set construction. -/
theorem foldl_pyInsertNew_memEq (k : YVal) :
    ∀ (xs acc : List YVal),
      (∃ x ∈ xs.foldl pyInsertNew acc, pyEq x k = true) ↔
        ((∃ x ∈ acc, pyEq x k = true) ∨ (∃ x ∈ xs, pyEq x k = true))
  | [], acc => by simp
  | x :: rest, acc => by
      rw [List.foldl_cons, foldl_pyInsertNew_memEq k rest (pyInsertNew acc x)]
      have hstep : (∃ y ∈ pyInsertNew acc x, pyEq y k = true) ↔
          ((∃ y ∈ acc, pyEq y k = true) ∨ pyEq x k = true) := by
        unfold pyInsertNew
        by_cases hany : acc.any (fun y => pyEq y x)
        · rw [if_pos hany]
          constructor
          · exact fun h => Or.inl h
          · rintro (h | h)
            · exact h
            · obtain ⟨y, hy, hyx⟩ := List.any_eq_true.mp hany
              exact ⟨y, hy, pyEq_trans hyx h⟩
        · rw [if_neg hany]
          simp only [List.mem_append, List.mem_singleton]
          constructor
          · rintro ⟨y, hy | rfl, hyk⟩
            · exact Or.inl ⟨y, hy, hyk⟩
            · exact Or.inr hyk
          · rintro (⟨y, hy, hyk⟩ | h)
            · exact ⟨y, Or.inl hy, hyk⟩
            · exact ⟨x, Or.inr rfl, h⟩
      rw [hstep]
      simp only [List.mem_cons]
      constructor
      · rintro ((h | h) | ⟨y, hy, hyk⟩)
        · exact Or.inl h
        · exact Or.inr ⟨x, Or.inl rfl, h⟩
        · exact Or.inr ⟨y, Or.inr hy, hyk⟩
      · rintro (h | ⟨y, rfl | hy, hyk⟩)
        · exact Or.inl (Or.inl h)
        · exact Or.inl (Or.inr hyk)
        · exact Or.inr ⟨y, hy, hyk⟩

theorem pySetList_memEq (xs : List YVal) (k : YVal) :
    (∃ x ∈ pySetList xs, pyEq x k = true) ↔ (∃ x ∈ xs, pyEq x k = true) := by
  unfold pySetList
  rw [foldl_pyInsertNew_memEq k xs []]
  simp

/-- The set never holds two elements equal under Python equality. -/
theorem foldl_pyInsertNew_pairwise :
    ∀ (xs acc : List YVal),
      acc.Pairwise (fun a b => pyEq a b = false) →
      (xs.foldl pyInsertNew acc).Pairwise (fun a b => pyEq a b = false)
  | [], acc, h => h
  | x :: rest, acc, h => by
      rw [List.foldl_cons]
      refine foldl_pyInsertNew_pairwise rest (pyInsertNew acc x) ?_
      unfold pyInsertNew
      by_cases hany : acc.any (fun y => pyEq y x)
      · rw [if_pos hany]
        exact h
      · rw [if_neg hany]
        rw [List.pairwise_append]
        refine ⟨h, List.pairwise_singleton _ _, ?_⟩
        intro y hy z hz
        rw [List.mem_singleton] at hz
        subst hz
        cases hq : pyEq y z
        · rfl
        · rw [List.any_eq_true] at hany
          exact absurd ⟨y, hy, hq⟩ hany

theorem pySetList_pairwise (xs : List YVal) :
    (pySetList xs).Pairwise (fun a b => pyEq a b = false) :=
  foldl_pyInsertNew_pairwise xs [] List.Pairwise.nil

theorem asStrings_map_str (l : List String) :
    asStrings (l.map YVal.str) = some l := by
  induction l with
  | nil => rfl
  | cons s rest ih => simp [asStrings, ih]

theorem filter_keyIn_map_str (entries : Dict) :
    ∀ l : List String,
      ((l.map YVal.str).filter (fun k => !(keyIn entries k))) =
        (l.filter (fun s => !(dictContains entries s))).map YVal.str
  | [] => rfl
  | s :: rest => by
      have ih := filter_keyIn_map_str entries rest
      rw [List.map_cons, List.filter_cons, List.filter_cons]
      have hk : keyIn entries (YVal.str s) = dictContains entries s := rfl
      rw [hk]
      cases hc : dictContains entries s
      · simp [ih]
      · simp [ih]

/-- C4: for every profile and statement, whenever the required set consists
of field names (strings), `validate_record` returns exactly the
alphabetically ordered, duplicate-free list of required field names absent
as keys of the record; it fails with a schema error when the record is not a
mapping; and only key presence is consulted — records agreeing on key
presence validate identically, whatever the field values. -/
theorem validate_record_missing_fields (schema : Dict)
    (profile statement : String) :
    (∀ entries (reqS : List String),
      required_fields schema profile statement =
        Except.ok (reqS.map YVal.str) →
      ∃ l : List String,
        validate_record schema profile statement (YVal.map entries) =
          Except.ok (l.map YVal.str) ∧
        l.Pairwise (fun a b => strLe a b = true) ∧ l.Nodup ∧
        (∀ k, k ∈ l ↔ (k ∈ reqS ∧ dictContains entries k = false))) ∧
    (∀ r, (∀ entries, r ≠ YVal.map entries) →
      validate_record schema profile statement r =
        Except.error "Record must be a dict") ∧
    (∀ e1 e2, (∀ k, dictContains e1 k = dictContains e2 k) →
      validate_record schema profile statement (YVal.map e1) =
        validate_record schema profile statement (YVal.map e2)) := by
  refine ⟨?_, ?_, ?_⟩
  · intro entries reqS hreq
    have hsorted : sortedPy (reqS.map YVal.str) =
        Except.ok ((sortStrings reqS).map YVal.str) := by
      unfold sortedPy
      rw [asStrings_map_str]
    have hvr : validate_record schema profile statement (YVal.map entries) =
        Except.ok (((sortStrings reqS).filter
          (fun s => !(dictContains entries s))).map YVal.str) := by
      unfold validate_record
      rw [hreq]
      show (match sortedPy (reqS.map YVal.str) with
            | Except.error e => Except.error e
            | Except.ok sortedReq =>
                Except.ok (sortedReq.filter (fun k => !(keyIn entries k)))) = _
      rw [hsorted]
      show Except.ok (((sortStrings reqS).map YVal.str).filter
        (fun k => !(keyIn entries k))) = _
      rw [filter_keyIn_map_str]
    have hnodup : reqS.Nodup := by
      obtain ⟨rq, rm, cvs, svs, kn, h1, h2, h3, h4, h5, h6, h7, hl⟩ :=
        required_fields_ok_shape schema profile statement _ hreq
      have hpw : (reqS.map YVal.str).Pairwise (fun a b => pyEq a b = false) :=
        hl ▸ pySetList_pairwise _
      rw [List.pairwise_map] at hpw
      refine List.Pairwise.imp ?_ hpw
      intro a b hab heq
      rw [heq] at hab
      rw [(pyEq_str b b).mpr rfl] at hab
      exact Bool.noConfusion hab
    refine ⟨_, hvr, ?_, ?_, ?_⟩
    · exact List.Pairwise.sublist (List.filter_sublist _)
        (sorted_sortStrings reqS)
    · exact List.Nodup.filter _ (nodup_sortStrings reqS hnodup)
    · intro k
      rw [List.mem_filter, mem_sortStrings]
      simp [Bool.not_eq_true']
  · intro r hr
    cases r with
    | map entries => exact absurd rfl (hr entries)
    | null => rfl
    | bool b => rfl
    | int n => rfl
    | str s => rfl
    | list xs => rfl
  · intro e1 e2 hsame
    unfold validate_record
    cases hrf : required_fields schema profile statement with
    | error e => rfl
    | ok req =>
      show (match sortedPy req with
            | Except.error e => Except.error e
            | Except.ok sortedReq =>
                Except.ok (sortedReq.filter (fun k => !(keyIn e1 k)))) =
           (match sortedPy req with
            | Except.error e => Except.error e
            | Except.ok sortedReq =>
                Except.ok (sortedReq.filter (fun k => !(keyIn e2 k))))
      cases hso : sortedPy req with
      | error e => rfl
      | ok sortedReq =>
        refine congrArg Except.ok (List.filter_congr ?_)
        intro k _
        cases k <;> simp [keyIn, hsame]

/-- The schema of the spec's missing-field example: `balance_sheet` knows
`symbol`, `period_end` and `total_assets`; the `default` profile requires
`symbol` and `period_end` on every statement and `total_assets` on the
balance sheet. -/
def exampleSchema : Dict :=
  [("statements", YVal.map
      [("balance_sheet", YVal.map
          [("fields", YVal.map
              [("symbol", YVal.null), ("period_end", YVal.null),
               ("total_assets", YVal.null)])])]),
   ("requirements", YVal.map
      [("default", YVal.map
          [("common", YVal.list [YVal.str "symbol", YVal.str "period_end"]),
           ("balance_sheet", YVal.list [YVal.str "total_assets"])])])]

/-- A balance-sheet record lacking `total_assets`. -/
def exampleRecord : Dict :=
  [("symbol", YVal.str "AAPL"), ("period_end", YVal.str "2023-12-31")]

/-- Witness for C4 on the spec's example: the record lacking `total_assets`
yields exactly `["total_assets"]`. -/
theorem validate_record_missing_fields_witness :
    required_fields exampleSchema "default" "balance_sheet" =
      Except.ok ((["symbol", "period_end", "total_assets"] : List String).map
        YVal.str) ∧
    validate_record exampleSchema "default" "balance_sheet"
        (YVal.map exampleRecord) = Except.ok [YVal.str "total_assets"] ∧
    (∃ l : List String, validate_record exampleSchema "default" "balance_sheet"
        (YVal.map exampleRecord) = Except.ok (l.map YVal.str) ∧
      l.Pairwise (fun a b => strLe a b = true) ∧ l.Nodup ∧
      (∀ k, k ∈ l ↔ (k ∈ ["symbol", "period_end", "total_assets"] ∧
        dictContains exampleRecord k = false))) := by
  refine ⟨by rfl, by rfl, ?_⟩
  exact (validate_record_missing_fields exampleSchema "default"
    "balance_sheet").1 exampleRecord ["symbol", "period_end", "total_assets"]
    (by rfl)

/-- A schema containing the profile `p` with well-formed (defaulted, empty)
requirement lists, but knowing no statements at all. -/
def unknownStatementSchema : Dict :=
  [("statements", YVal.map []),
   ("requirements", YVal.map [("p", YVal.map [])])]

/-- C5 counterexample: `required_fields` raises although the profile is
known, both required-field lists are (empty) sequences of strings, and there
is no statement-specific required field that could be unknown — the raise
comes from the unknown statement inside `fields_for_statement`, a failure
condition the claim's "exactly when" omits. -/
theorem required_fields_exactly_when_counterexample :
    (∃ e, required_fields unknownStatementSchema "p" "balance_sheet" =
      Except.error e) ∧
    dictGet unknownStatementSchema "requirements" =
      some (YVal.map [("p", YVal.map [])]) ∧
    dictGet [("p", YVal.map [])] "p" = some (YVal.map []) ∧
    (dictGet ([] : Dict) "common").getD (YVal.list []) = YVal.list [] ∧
    (dictGet ([] : Dict) "balance_sheet").getD (YVal.list []) = YVal.list [] ∧
    asStrings [] = some ([] : List String) :=
  ⟨⟨"Unknown statement", rfl⟩, rfl, rfl, rfl, rfl, rfl⟩

/-- C5 (amended): relative to a schema whose `requirements` value is a
mapping, `required_fields` succeeds exactly when the profile is known with a
mapping entry, both required-field lists are sequences whose elements are
all hashable (an unhashable element makes the Python set union raise), the
statement's known fields resolve (so the statement itself must be known and
carry a `fields` mapping — conditions the original claim omitted), and every
statement-specific required field is among the known field names; a
successful result is, as a set up to Python value equality, the union of the
two lists; the integrity check runs inside the call itself, hence on every
call; and it raises exactly when it does not succeed. -/
theorem required_fields_union_and_error_rule (schema : Dict) (reqsM : Dict)
    (hreq : dictGet schema "requirements" = some (YVal.map reqsM))
    (profile statement : String) :
    ((∃ l, required_fields schema profile statement = Except.ok l) ↔
      ∃ rm cvs svs known,
        dictGet reqsM profile = some (YVal.map rm) ∧
        (dictGet rm "common").getD (YVal.list []) = YVal.list cvs ∧
        (dictGet rm statement).getD (YVal.list []) = YVal.list svs ∧
        (∀ v ∈ cvs ++ svs, isHashable v = true) ∧
        fields_for_statement schema statement = Except.ok known ∧
        (∀ f ∈ svs, strSetMem f known = true)) ∧
    (∀ rm cvs svs l,
        dictGet reqsM profile = some (YVal.map rm) →
        (dictGet rm "common").getD (YVal.list []) = YVal.list cvs →
        (dictGet rm statement).getD (YVal.list []) = YVal.list svs →
        required_fields schema profile statement = Except.ok l →
        (∀ k, (∃ x ∈ l, pyEq x k = true) ↔
          (∃ x ∈ cvs ++ svs, pyEq x k = true))) ∧
    ((∃ e, required_fields schema profile statement = Except.error e) ↔
      ¬ ∃ l, required_fields schema profile statement = Except.ok l) := by
  refine ⟨⟨?_, ?_⟩, ?_, ?_⟩
  · rintro ⟨l, hl⟩
    obtain ⟨rq, rm, cvs, svs, kn, h1, h2, h3, h4, h5, h6, h7, -⟩ :=
      required_fields_ok_shape schema profile statement l hl
    rw [hreq] at h1
    injection h1 with h1
    injection h1 with h1
    subst h1
    exact ⟨rm, cvs, svs, kn, h2, h3, h4, List.all_eq_true.mp h5, h6, h7⟩
  · rintro ⟨rm, cvs, svs, known, hrm, hcvs, hsvs, hhash, hknown, hforall⟩
    refine ⟨pySetList (cvs ++ svs), ?_⟩
    have hhash2 : (cvs ++ svs).all isHashable = true :=
      List.all_eq_true.mpr hhash
    have hguard : (svs.filter (fun f => !(strSetMem f known))).isEmpty = true :=
      (filter_bnot_isEmpty_iff _ _).mpr hforall
    unfold required_fields
    rw [hreq]
    show (match dictGet reqsM profile with
      | none => Except.error "Unknown requirement profile"
      | some (YVal.map rm) =>
          match (dictGet rm "common").getD (YVal.list []),
                (dictGet rm statement).getD (YVal.list []) with
          | YVal.list cvs, YVal.list svs =>
              if (cvs ++ svs).all isHashable then
                match fields_for_statement schema statement with
                | Except.error e => Except.error e
                | Except.ok known =>
                    if (svs.filter (fun f => !(strSetMem f known))).isEmpty then
                      Except.ok (pySetList (cvs ++ svs))
                    else Except.error "Profile requires unknown fields"
              else Except.error "TypeError: unhashable type in set union"
          | _, _ => Except.error "Requirements for profile must be lists"
      | some _ => Except.error "TypeError: profile entry is not a mapping")
        = Except.ok (pySetList (cvs ++ svs))
    rw [hrm]
    show (match (dictGet rm "common").getD (YVal.list []),
                (dictGet rm statement).getD (YVal.list []) with
          | YVal.list cvs, YVal.list svs =>
              if (cvs ++ svs).all isHashable then
                match fields_for_statement schema statement with
                | Except.error e => Except.error e
                | Except.ok known =>
                    if (svs.filter (fun f => !(strSetMem f known))).isEmpty then
                      Except.ok (pySetList (cvs ++ svs))
                    else Except.error "Profile requires unknown fields"
              else Except.error "TypeError: unhashable type in set union"
          | _, _ => Except.error "Requirements for profile must be lists")
        = Except.ok (pySetList (cvs ++ svs))
    rw [hcvs, hsvs]
    show (if (cvs ++ svs).all isHashable then
            match fields_for_statement schema statement with
            | Except.error e => Except.error e
            | Except.ok known =>
                if (svs.filter (fun f => !(strSetMem f known))).isEmpty then
                  Except.ok (pySetList (cvs ++ svs))
                else Except.error "Profile requires unknown fields"
          else Except.error "TypeError: unhashable type in set union")
        = Except.ok (pySetList (cvs ++ svs))
    rw [if_pos hhash2]
    show (match fields_for_statement schema statement with
          | Except.error e => Except.error e
          | Except.ok known =>
              if (svs.filter (fun f => !(strSetMem f known))).isEmpty then
                Except.ok (pySetList (cvs ++ svs))
              else Except.error "Profile requires unknown fields")
        = Except.ok (pySetList (cvs ++ svs))
    rw [hknown]
    show (if (svs.filter (fun f => !(strSetMem f known))).isEmpty then
            Except.ok (pySetList (cvs ++ svs))
          else Except.error "Profile requires unknown fields")
        = Except.ok (pySetList (cvs ++ svs))
    rw [if_pos hguard]
  · rintro rm cvs svs l hrm hcvs hsvs hl k
    obtain ⟨rq, rm₁, cvs₁, svs₁, kn, h1, h2, h3, h4, -, -, -, hldef⟩ :=
      required_fields_ok_shape schema profile statement l hl
    rw [hreq] at h1
    injection h1 with h1
    injection h1 with h1
    subst h1
    rw [hrm] at h2
    injection h2 with h2
    injection h2 with h2
    subst h2
    rw [hcvs] at h3
    injection h3 with h3
    subst h3
    rw [hsvs] at h4
    injection h4 with h4
    subst h4
    rw [hldef]
    exact pySetList_memEq (cvs ++ svs) k
  · cases hv : required_fields schema profile statement with
    | error e =>
      constructor
      · rintro - ⟨l, hl⟩
        exact Except.noConfusion hl
      · intro _
        exact ⟨e, rfl⟩
    | ok l =>
      constructor
      · rintro ⟨e, he⟩
        exact Except.noConfusion he
      · intro hno
        exact absurd ⟨l, rfl⟩ hno

/-- Witness for C5 (amended) on the example schema: the `default` profile
and `balance_sheet` statement satisfy every success condition, so
`required_fields` succeeds. -/
theorem required_fields_union_and_error_rule_witness :
    ∃ l, required_fields exampleSchema "default" "balance_sheet" =
      Except.ok l := by
  refine ((required_fields_union_and_error_rule exampleSchema
    [("default", YVal.map
        [("common", YVal.list [YVal.str "symbol", YVal.str "period_end"]),
         ("balance_sheet", YVal.list [YVal.str "total_assets"])])]
    (by rfl) "default" "balance_sheet").1).mpr ?_
  refine ⟨_, _, _, _, rfl, rfl, rfl, ?_, rfl, ?_⟩
  · intro v hv
    simp only [List.cons_append, List.nil_append, List.mem_cons,
      List.not_mem_nil, or_false] at hv
    rcases hv with rfl | rfl | rfl <;> rfl
  · intro f hf
    simp only [List.mem_cons, List.not_mem_nil, or_false] at hf
    subst hf
    rfl

/-- One finding appended to a detail list (runner.py lines 88-93). -/
structure Finding where
  symbol : Option YVal
  period_end : Option YVal
  missing : List YVal
  severity : String

/-- The diagnostics summary block (runner.py lines 62-68). -/
structure Summary where
  status : String
  total_records_checked : Nat
  missing_total : Nat
  errors : Nat
  warnings : Nat

/-- The diagnostics report (runner.py lines 58-74). -/
structure Diagnostics where
  schema_version : Option YVal
  profile : String
  summary : Summary
  details : List (String × List Finding)

/-- The diagnostics dictionary as initialized before the sweep (runner.py
lines 58-74): success status, zero counters, and empty detail lists for the
three canonical statements. -/
def initDiagnostics (schema : Dict) (profile : String) : Diagnostics :=
  { schema_version := dictGet schema "version"
    profile := profile
    summary := { status := "success", total_records_checked := 0,
                 missing_total := 0, errors := 0, warnings := 0 }
    details := [("balance_sheet", []), ("income_statement", []),
                ("cash_flow_statement", [])] }

/-- Python `record.get(key)` on a record value. -/
def recGet (record : YVal) (k : String) : Option YVal :=
  match record with
  | YVal.map entries => dictGet entries k
  | _ => none

/-- `diagnostics["details"].setdefault(statement, []).append(finding)`
(runner.py line 88): append to the statement's list, creating the entry (at
the end) when absent. -/
def appendFinding (details : List (String × List Finding)) (stmt : String)
    (f : Finding) : List (String × List Finding) :=
  match details with
  | [] => [(stmt, [f])]
  | (s, fs) :: rest =>
      if s = stmt then (s, fs ++ [f]) :: rest
      else (s, fs) :: appendFinding rest stmt f

/-- The sweep body for one record (runner.py lines 77-93): count the record,
validate it, and on a non-empty missing list bump the counters per the
severity rule and append a finding; a `SchemaError` escaping
`validate_record` aborts the sweep carrying the partially updated
diagnostics. -/
def processRecord (schema : Dict) (profile : String) (is_strict : Bool)
    (stmt : String) (record : YVal) (d : Diagnostics) :
    Diagnostics × Option String :=
  let d1 := { d with summary := { d.summary with
    total_records_checked := d.summary.total_records_checked + 1 } }
  match validate_record schema profile stmt record with
  | Except.error e => (d1, some e)
  | Except.ok missing =>
      if missing.isEmpty then (d1, none)
      else
        let severity := if is_strict then "error" else "warning"
        let s1 :=
          if severity = "error" then
            { d1.summary with
              missing_total := d1.summary.missing_total + missing.length,
              errors := d1.summary.errors + 1 }
          else
            { d1.summary with
              missing_total := d1.summary.missing_total + missing.length,
              warnings := d1.summary.warnings + 1 }
        let f : Finding :=
          { symbol := recGet record "symbol",
            period_end := recGet record "period_end",
            missing := missing, severity := severity }
        let d2 : Diagnostics :=
          { d1 with
            summary := s1,
            details := appendFinding d1.details stmt f }
        (d2, none)

/-- The inner sweep loop over one statement's record list (runner.py line
77), stopping at the first escaping exception. -/
def sweepRecords (schema : Dict) (profile : String) (is_strict : Bool)
    (stmt : String) : List YVal → Diagnostics → Diagnostics × Option String
  | [], d => (d, none)
  | r :: rest, d =>
      match processRecord schema profile is_strict stmt r d with
      | (d1, some e) => (d1, some e)
      | (d1, none) => sweepRecords schema profile is_strict stmt rest d1

/-- The outer sweep loop over the fetched bundle (runner.py line 76). -/
def sweepBundle (schema : Dict) (profile : String) (is_strict : Bool) :
    List (String × List YVal) → Diagnostics → Diagnostics × Option String
  | [], d => (d, none)
  | (stmt, records) :: rest, d =>
      match sweepRecords schema profile is_strict stmt records d with
      | (d1, some e) => (d1, some e)
      | (d1, none) => sweepBundle schema profile is_strict rest d1

/-- Status classification and abort decision (runner.py lines 95-101). -/
def setStatus (d : Diagnostics) : Diagnostics × Bool :=
  if d.summary.errors > 0 then
    ({ d with summary := { d.summary with status := "failed" } }, true)
  else if d.summary.warnings > 0 then
    ({ d with summary := { d.summary with status := "degraded" } }, false)
  else
    ({ d with summary := { d.summary with status := "success" } }, false)

/-- How the validate-and-write phase of `main` terminates. -/
inductive RunOutcome where
  | success
  | schemaAbort
  | raised (e : String)

/-- The observable result of the validate-and-write phase: the artifact files
written in order, the diagnostics as persisted, and the termination mode. -/
structure RunResult where
  artifacts : List String
  diagnostics : Diagnostics
  outcome : RunOutcome

/-- The validate-and-write phase of `main` (runner.py lines 46-121), given
the active profile and the fetched bundle: `config.yaml` is written first;
the `try` block computes the strictness, sweeps the bundle, decides the
status, and writes one CSV per statement unless aborting; the `finally`
block always writes `diagnostics.yaml`; only then does a pending abort (or
the exception that escaped the sweep) propagate. -/
def runMain (schema : Dict) (profile : String)
    (bundle : List (String × List YVal)) : RunResult :=
  let strict_profiles : List String := ["debug_strict"]
  let is_strict := strict_profiles.contains profile
  let d0 := initDiagnostics schema profile
  match sweepBundle schema profile is_strict bundle d0 with
  | (d, some e) =>
      { artifacts := ["config.yaml", "diagnostics.yaml"], diagnostics := d,
        outcome := RunOutcome.raised e }
  | (d, none) =>
      match setStatus d with
      | (d1, true) =>
          { artifacts := ["config.yaml", "diagnostics.yaml"],
            diagnostics := d1, outcome := RunOutcome.schemaAbort }
      | (d1, false) =>
          { artifacts := ["config.yaml"] ++
              bundle.map (fun p => p.1 ++ ".csv") ++ ["diagnostics.yaml"],
            diagnostics := d1, outcome := RunOutcome.success }

/-- Every finding recorded in the details carries the given severity. -/
def SeverityAll (sev : String) (details : List (String × List Finding)) :
    Prop :=
  ∀ s fs, (s, fs) ∈ details → ∀ f ∈ fs, f.severity = sev

theorem severityAll_appendFinding (sev : String)
    (details : List (String × List Finding)) (stmt : String) (f : Finding)
    (hd : SeverityAll sev details) (hf : f.severity = sev) :
    SeverityAll sev (appendFinding details stmt f) := by
  induction details with
  | nil =>
    intro s fs hmem g hg
    simp only [appendFinding, List.mem_singleton] at hmem
    obtain ⟨rfl, rfl⟩ := Prod.mk.injEq .. ▸ hmem
    simp only [List.mem_singleton] at hg
    subst hg
    exact hf
  | cons p rest ih =>
    obtain ⟨s0, fs0⟩ := p
    have hd0 : ∀ f ∈ fs0, f.severity = sev :=
      hd s0 fs0 (List.mem_cons_self _ _)
    have hdrest : SeverityAll sev rest :=
      fun s fs hmem => hd s fs (List.mem_cons_of_mem _ hmem)
    simp only [appendFinding]
    split
    · intro s fs hmem g hg
      rcases List.mem_cons.mp hmem with heq | hmem2
      · obtain ⟨rfl, rfl⟩ := Prod.mk.injEq .. ▸ heq
        rcases List.mem_append.mp hg with hg1 | hg2
        · exact hd0 g hg1
        · simp only [List.mem_singleton] at hg2
          subst hg2
          exact hf
      · exact hdrest s fs hmem2 g hg
    · intro s fs hmem g hg
      rcases List.mem_cons.mp hmem with heq | hmem2
      · obtain ⟨rfl, rfl⟩ := Prod.mk.injEq .. ▸ heq
        exact hd0 g hg
      · exact ih hdrest s fs hmem2 g hg

/-- `processRecord` leaves the details unchanged, or appends exactly one
finding whose severity follows the strictness rule. -/
theorem processRecord_details_shape (schema : Dict) (profile : String)
    (is_strict : Bool) (stmt : String) (record : YVal) (d : Diagnostics) :
    (processRecord schema profile is_strict stmt record d).1.details =
      d.details ∨
    ∃ f : Finding, f.severity = (if is_strict then "error" else "warning") ∧
      (processRecord schema profile is_strict stmt record d).1.details =
        appendFinding d.details stmt f := by
  unfold processRecord
  cases validate_record schema profile stmt record with
  | error e => exact Or.inl rfl
  | ok missing =>
    by_cases hm : missing.isEmpty
    · simp only [hm, if_true]
      exact Or.inl trivial
    · rw [Bool.not_eq_true] at hm
      simp only [hm, Bool.false_eq_true, if_false]
      exact Or.inr ⟨_, rfl, rfl⟩

theorem severityAll_processRecord (schema : Dict) (profile : String)
    (is_strict : Bool) (stmt : String) (record : YVal) (d : Diagnostics)
    (hd : SeverityAll (if is_strict then "error" else "warning") d.details) :
    SeverityAll (if is_strict then "error" else "warning")
      (processRecord schema profile is_strict stmt record d).1.details := by
  rcases processRecord_details_shape schema profile is_strict stmt record d
    with h | ⟨f, hf, h⟩
  · rw [h]; exact hd
  · rw [h]; exact severityAll_appendFinding _ _ _ _ hd hf

theorem severityAll_sweepRecords (schema : Dict) (profile : String)
    (is_strict : Bool) (stmt : String) (records : List YVal)
    (d : Diagnostics)
    (hd : SeverityAll (if is_strict then "error" else "warning") d.details) :
    SeverityAll (if is_strict then "error" else "warning")
      (sweepRecords schema profile is_strict stmt records d).1.details := by
  induction records generalizing d with
  | nil => exact hd
  | cons r rest ih =>
    simp only [sweepRecords]
    have hstep := severityAll_processRecord schema profile is_strict stmt r d hd
    rcases hpr : processRecord schema profile is_strict stmt r d with ⟨d1, eo⟩
    rw [hpr] at hstep
    cases eo with
    | some e => exact hstep
    | none => exact ih d1 hstep

theorem severityAll_sweepBundle (schema : Dict) (profile : String)
    (is_strict : Bool) (bundle : List (String × List YVal)) (d : Diagnostics)
    (hd : SeverityAll (if is_strict then "error" else "warning") d.details) :
    SeverityAll (if is_strict then "error" else "warning")
      (sweepBundle schema profile is_strict bundle d).1.details := by
  induction bundle generalizing d with
  | nil => exact hd
  | cons p rest ih =>
    obtain ⟨stmt, records⟩ := p
    simp only [sweepBundle]
    have hstep := severityAll_sweepRecords schema profile is_strict stmt
      records d hd
    rcases hsr : sweepRecords schema profile is_strict stmt records d
      with ⟨d1, eo⟩
    rw [hsr] at hstep
    cases eo with
    | some e => exact hstep
    | none => exact ih d1 hstep

/-- The three statements whose detail lists are seeded at initialization
(runner.py lines 69-73). -/
def canonicalStatements : List String :=
  ["balance_sheet", "income_statement", "cash_flow_statement"]

/-- Lookup of one statement's detail list in the diagnostics details. -/
def detailsFor : List (String × List Finding) → String → Option (List Finding)
  | [], _ => none
  | (s, fs) :: rest, stmt => if s = stmt then some fs else detailsFor rest stmt

theorem detailsFor_appendFinding (details : List (String × List Finding))
    (stmt : String) (f : Finding) (s : String) :
    detailsFor (appendFinding details stmt f) s =
      if s = stmt then some ((detailsFor details s).getD [] ++ [f])
      else detailsFor details s := by
  induction details with
  | nil =>
    by_cases h : s = stmt
    · subst h
      simp [appendFinding, detailsFor]
    · have h' : ¬ stmt = s := fun hh => h hh.symm
      simp [appendFinding, detailsFor, h, h']
  | cons p rest ih =>
    obtain ⟨s0, fs0⟩ := p
    by_cases h0 : s0 = stmt
    · subst h0
      by_cases hs : s0 = s
      · subst hs
        simp [appendFinding, detailsFor]
      · have hs' : ¬ s = s0 := fun hh => hs hh.symm
        simp [appendFinding, detailsFor, hs, hs']
    · by_cases hs : s0 = s
      · subst hs
        simp [appendFinding, detailsFor, h0]
      · have hs' : ¬ s = s0 := fun hh => hs hh.symm
        simp [appendFinding, detailsFor, h0, hs, hs', ih]

/-- The finding `processRecord` would append for one record: present
exactly when validation succeeds with a non-empty missing list (runner.py
lines 79-93). -/
def findingOf (schema : Dict) (profile : String) (is_strict : Bool)
    (stmt : String) (record : YVal) : Option Finding :=
  match validate_record schema profile stmt record with
  | Except.error _ => none
  | Except.ok missing =>
      if missing.isEmpty then none
      else
        let severity := if is_strict then "error" else "warning"
        some { symbol := recGet record "symbol",
               period_end := recGet record "period_end",
               missing := missing, severity := severity }

/-- The findings one statement's record list contributes, in sweep order. -/
def findingsOfRecords (schema : Dict) (profile : String) (is_strict : Bool)
    (stmt : String) : List YVal → List Finding
  | [] => []
  | r :: rest =>
      (findingOf schema profile is_strict stmt r).toList ++
        findingsOfRecords schema profile is_strict stmt rest

/-- The findings the whole batch contributes to one statement's detail
list, in sweep order. -/
def findingsOfBundle (schema : Dict) (profile : String) (is_strict : Bool) :
    List (String × List YVal) → String → List Finding
  | [], _ => []
  | (stmt, records) :: rest, s =>
      (if s = stmt then findingsOfRecords schema profile is_strict stmt records
       else []) ++ findingsOfBundle schema profile is_strict rest s

/-- Appending a batch of findings to an optional detail list: an existing
list is extended in place; a missing entry is created exactly when at least
one finding arrives (the `setdefault` behaviour). -/
def optExtend : Option (List Finding) → List Finding → Option (List Finding)
  | some fs, fnew => some (fs ++ fnew)
  | none, [] => none
  | none, fnew => some fnew

theorem optExtend_nil (x : Option (List Finding)) : optExtend x [] = x := by
  cases x with
  | some fs => simp [optExtend]
  | none => rfl

theorem optExtend_assoc (x : Option (List Finding)) (f1 f2 : List Finding) :
    optExtend (optExtend x f1) f2 = optExtend x (f1 ++ f2) := by
  cases x with
  | some fs => simp [optExtend]
  | none =>
    cases f1 with
    | nil => rfl
    | cons g rest => rfl

/-- Effect of one record on the detail mapping, when the record does not
abort the sweep: the statement's entry is extended by exactly that record's
finding, every other entry is untouched. -/
theorem processRecord_details_eq (schema : Dict) (profile : String)
    (is_strict : Bool) (stmt : String) (record : YVal) (d d1 : Diagnostics)
    (h : processRecord schema profile is_strict stmt record d = (d1, none))
    (s : String) :
    detailsFor d1.details s =
      if s = stmt then
        optExtend (detailsFor d.details s)
          (findingOf schema profile is_strict stmt record).toList
      else detailsFor d.details s := by
  unfold processRecord at h
  unfold findingOf
  cases hv : validate_record schema profile stmt record with
  | error e =>
      rw [hv] at h
      exact absurd (congrArg Prod.snd h) (by simp)
  | ok missing =>
      rw [hv] at h
      by_cases hm : missing.isEmpty
      · simp only [hm, if_true, Option.toList] at h ⊢
        obtain rfl : _ = d1 := congrArg Prod.fst h
        by_cases hs : s = stmt
        · rw [if_pos hs, optExtend_nil]
        · rw [if_neg hs]
      · rw [Bool.not_eq_true] at hm
        simp only [hm, Bool.false_eq_true, if_false, Option.toList] at h ⊢
        obtain rfl : _ = d1 := congrArg Prod.fst h
        show detailsFor (appendFinding d.details stmt _) s = _
        rw [detailsFor_appendFinding]
        by_cases hs : s = stmt
        · rw [if_pos hs, if_pos hs]
          cases hopt : detailsFor d.details s <;> simp [optExtend]
        · rw [if_neg hs, if_neg hs]

/-- Effect of one statement's completed record loop on the detail mapping:
that statement's entry is extended by exactly its findings. -/
theorem sweepRecords_details (schema : Dict) (profile : String)
    (is_strict : Bool) (stmt : String) :
    ∀ (records : List YVal) (d d' : Diagnostics),
      sweepRecords schema profile is_strict stmt records d = (d', none) →
      ∀ s, detailsFor d'.details s =
        if s = stmt then
          optExtend (detailsFor d.details s)
            (findingsOfRecords schema profile is_strict stmt records)
        else detailsFor d.details s
  | [], d, d', h, s => by
      obtain rfl : d = d' := congrArg Prod.fst h
      by_cases hs : s = stmt
      · rw [if_pos hs]
        show detailsFor d.details s =
          optExtend (detailsFor d.details s) []
        rw [optExtend_nil]
      · rw [if_neg hs]
  | r :: rest, d, d', h, s => by
      simp only [sweepRecords] at h
      rcases hpr : processRecord schema profile is_strict stmt r d
        with ⟨d1, eo⟩
      rw [hpr] at h
      cases eo with
      | some e => exact absurd (congrArg Prod.snd h) (by simp)
      | none =>
          have h1 := processRecord_details_eq schema profile is_strict stmt
            r d d1 hpr
          have h2 := sweepRecords_details schema profile is_strict stmt
            rest d1 d' h
          rw [h2 s, h1 s]
          by_cases hs : s = stmt
          · simp only [if_pos hs, optExtend_assoc]
            rfl
          · simp only [if_neg hs]

/-- Effect of a completed sweep on the detail mapping: every entry is
extended by exactly the findings of its statement across the batch. -/
theorem sweepBundle_details (schema : Dict) (profile : String)
    (is_strict : Bool) :
    ∀ (bundle : List (String × List YVal)) (d d' : Diagnostics),
      sweepBundle schema profile is_strict bundle d = (d', none) →
      ∀ s, detailsFor d'.details s =
        optExtend (detailsFor d.details s)
          (findingsOfBundle schema profile is_strict bundle s)
  | [], d, d', h, s => by
      obtain rfl : d = d' := congrArg Prod.fst h
      show detailsFor d.details s = optExtend (detailsFor d.details s) []
      rw [optExtend_nil]
  | (stmt, records) :: rest, d, d', h, s => by
      simp only [sweepBundle] at h
      rcases hsr : sweepRecords schema profile is_strict stmt records d
        with ⟨d1, eo⟩
      rw [hsr] at h
      cases eo with
      | some e => exact absurd (congrArg Prod.snd h) (by simp)
      | none =>
          have h1 := sweepRecords_details schema profile is_strict stmt
            records d d1 hsr
          have h2 := sweepBundle_details schema profile is_strict rest
            d1 d' h
          rw [h2 s, h1 s]
          by_cases hs : s = stmt
          · rw [if_pos hs, optExtend_assoc]
            have hb : findingsOfBundle schema profile is_strict
                ((stmt, records) :: rest) s =
                findingsOfRecords schema profile is_strict stmt records ++
                  findingsOfBundle schema profile is_strict rest s := by
              show ((if s = stmt then
                  findingsOfRecords schema profile is_strict stmt records
                else []) ++ findingsOfBundle schema profile is_strict rest s)
                = _
              rw [if_pos hs]
            rw [hb]
          · rw [if_neg hs]
            have hb : findingsOfBundle schema profile is_strict
                ((stmt, records) :: rest) s =
                findingsOfBundle schema profile is_strict rest s := by
              show ((if s = stmt then
                  findingsOfRecords schema profile is_strict stmt records
                else []) ++ findingsOfBundle schema profile is_strict rest s)
                = _
              rw [if_neg hs, List.nil_append]
            rw [hb]

/-- The initial detail mapping seeds exactly the canonical statements with
empty lists. -/
theorem detailsFor_init (schema : Dict) (profile : String) (s : String) :
    detailsFor (initDiagnostics schema profile).details s =
      if s ∈ canonicalStatements then some [] else none := by
  by_cases h1 : s = "balance_sheet"
  · subst h1
    rfl
  · by_cases h2 : s = "income_statement"
    · subst h2
      rfl
    · by_cases h3 : s = "cash_flow_statement"
      · subst h3
        rfl
      · have hnc : s ∉ canonicalStatements := by
          simp [canonicalStatements, h1, h2, h3]
        rw [if_neg hnc]
        simp only [initDiagnostics, detailsFor]
        rw [if_neg (fun hh => h1 hh.symm), if_neg (fun hh => h2 hh.symm),
          if_neg (fun hh => h3 hh.symm)]

/-- The persisted diagnostics carry exactly the details the sweep produced:
neither the status decision nor the artifact phase touches them. -/
theorem runMain_details_eq (schema : Dict) (profile : String)
    (bundle : List (String × List YVal)) :
    (runMain schema profile bundle).diagnostics.details =
      (sweepBundle schema profile
        ((["debug_strict"] : List String).contains profile) bundle
        (initDiagnostics schema profile)).1.details := by
  simp only [runMain]
  rcases hsw : sweepBundle schema profile
      ((["debug_strict"] : List String).contains profile) bundle
      (initDiagnostics schema profile) with ⟨d, eo⟩
  cases eo with
  | some e => rfl
  | none =>
    simp only [setStatus]
    split_ifs <;> rfl

/-- A schema knowing one extra statement beyond the canonical three, whose
only required field is `symbol`. -/
def extraStatementSchema : Dict :=
  [("statements", YVal.map
      [("extra_statement", YVal.map
          [("fields", YVal.map [("symbol", YVal.null)])])]),
   ("requirements", YVal.map
      [("default", YVal.map
          [("common", YVal.list [YVal.str "symbol"])])])]

/-- A batch covering the three canonical statements plus a fourth statement
whose single record is complete (zero findings). -/
def extraBundleComplete : List (String × List YVal) :=
  [("balance_sheet", []), ("income_statement", []),
   ("cash_flow_statement", []),
   ("extra_statement", [YVal.map [("symbol", YVal.str "AAPL")]])]

/-- C8 counterexample: the run completes successfully on a batch containing
the statement `extra_statement` with zero findings, yet the detail mapping
has no entry for it — only the three seeded statements keep empty-but-present
lists; a non-canonical statement with zero findings is absent. -/
theorem runMain_details_every_statement_counterexample :
    (runMain extraStatementSchema "default" extraBundleComplete).outcome =
      RunOutcome.success ∧
    "extra_statement" ∈ extraBundleComplete.map Prod.fst ∧
    detailsFor (runMain extraStatementSchema "default"
      extraBundleComplete).diagnostics.details "extra_statement" = none :=
  ⟨rfl, by decide, rfl⟩

/-- C8 (amended): after a validation sweep that completes, every entry of
the detail mapping is exactly characterized: each of the three canonical
statements maps to precisely its list of findings — present, and empty
exactly when it has zero findings — and any other statement maps to its
list of findings when that list is non-empty, and has no entry exactly when
it has zero findings. -/
theorem runMain_details_exact (schema : Dict) (profile : String)
    (bundle : List (String × List YVal))
    (h : (sweepBundle schema profile
        ((["debug_strict"] : List String).contains profile) bundle
        (initDiagnostics schema profile)).2 = none) :
    (∀ s, detailsFor (runMain schema profile bundle).diagnostics.details s =
      optExtend (if s ∈ canonicalStatements then some [] else none)
        (findingsOfBundle schema profile
          ((["debug_strict"] : List String).contains profile) bundle s)) ∧
    (∀ s ∈ canonicalStatements,
      detailsFor (runMain schema profile bundle).diagnostics.details s =
        some (findingsOfBundle schema profile
          ((["debug_strict"] : List String).contains profile) bundle s)) ∧
    (∀ s, s ∉ canonicalStatements →
      (detailsFor (runMain schema profile bundle).diagnostics.details s =
          none ↔
        findingsOfBundle schema profile
          ((["debug_strict"] : List String).contains profile) bundle s
          = [])) := by
  obtain ⟨d, hsw⟩ : ∃ d, sweepBundle schema profile
      ((["debug_strict"] : List String).contains profile) bundle
      (initDiagnostics schema profile) = (d, none) := by
    refine ⟨(sweepBundle schema profile
      ((["debug_strict"] : List String).contains profile) bundle
      (initDiagnostics schema profile)).1, ?_⟩
    conv_lhs => rw [← Prod.mk.eta (p := sweepBundle schema profile
      ((["debug_strict"] : List String).contains profile) bundle
      (initDiagnostics schema profile))]
    rw [h]
  have hmain : ∀ s,
      detailsFor (runMain schema profile bundle).diagnostics.details s =
        optExtend (if s ∈ canonicalStatements then some [] else none)
          (findingsOfBundle schema profile
            ((["debug_strict"] : List String).contains profile) bundle s)
      := by
    intro s
    rw [runMain_details_eq, hsw]
    show detailsFor d.details s = _
    rw [sweepBundle_details schema profile
      ((["debug_strict"] : List String).contains profile) bundle
      (initDiagnostics schema profile) d hsw s, detailsFor_init]
  refine ⟨hmain, ?_, ?_⟩
  · intro s hs
    rw [hmain s, if_pos hs]
    show optExtend (some []) _ = _
    simp [optExtend]
  · intro s hs
    rw [hmain s, if_neg hs]
    cases hF : findingsOfBundle schema profile
        ((["debug_strict"] : List String).contains profile) bundle s with
    | nil => simp [optExtend]
    | cons g rest => simp [optExtend]

/-- Witness for C8 (amended): on a completing run whose extra statement has
a record missing `symbol`, the canonical statement balance_sheet maps to
exactly its (empty) finding list, and the non-canonical statement, having
one finding, is present. -/
theorem runMain_details_exact_witness :
    (sweepBundle extraStatementSchema "default"
        ((["debug_strict"] : List String).contains "default")
        [("extra_statement", [YVal.map []])]
        (initDiagnostics extraStatementSchema "default")).2 = none ∧
    detailsFor (runMain extraStatementSchema "default"
        [("extra_statement", [YVal.map []])]).diagnostics.details
        "balance_sheet" =
      some (findingsOfBundle extraStatementSchema "default"
        ((["debug_strict"] : List String).contains "default")
        [("extra_statement", [YVal.map []])] "balance_sheet") ∧
    detailsFor (runMain extraStatementSchema "default"
        [("extra_statement", [YVal.map []])]).diagnostics.details
        "extra_statement" ≠ none := by
  refine ⟨rfl, ?_, ?_⟩
  · exact (runMain_details_exact extraStatementSchema "default"
      [("extra_statement", [YVal.map []])] (by rfl)).2.1 "balance_sheet"
      (by decide)
  · intro hcon
    have h2 := ((runMain_details_exact extraStatementSchema "default"
      [("extra_statement", [YVal.map []])] (by rfl)).2.2 "extra_statement"
      (by decide)).mp hcon
    rw [show findingsOfBundle extraStatementSchema "default"
        ((["debug_strict"] : List String).contains "default")
        [("extra_statement", [YVal.map []])] "extra_statement" =
        [{ symbol := none, period_end := none,
           missing := [YVal.str "symbol"], severity := "warning" }]
      from rfl] at h2
    exact List.noConfusion h2

/-- C6: the diagnostics artifact is written on every exit path of the
validate-and-write phase — the success path, the abort path taken when
error findings exist, and the path where the sweep itself raises — and it is
the final write before any abort or exception propagates; downstream tabular
artifacts exist only on the success path. -/
theorem runMain_diagnostics_always_written (schema : Dict) (profile : String)
    (bundle : List (String × List YVal)) :
    "diagnostics.yaml" ∈ (runMain schema profile bundle).artifacts ∧
    (runMain schema profile bundle).artifacts.getLast? =
      some "diagnostics.yaml" ∧
    ((runMain schema profile bundle).outcome ≠ RunOutcome.success →
      (runMain schema profile bundle).artifacts =
        ["config.yaml", "diagnostics.yaml"]) := by
  simp only [runMain]
  rcases hsw : sweepBundle schema profile
      ((["debug_strict"] : List String).contains profile) bundle
      (initDiagnostics schema profile) with ⟨d, eo⟩
  cases eo with
  | some e =>
    refine ⟨by simp, rfl, fun _ => rfl⟩
  | none =>
    simp only [setStatus]
    split_ifs with h1 h2
    · exact ⟨by simp, rfl, fun _ => rfl⟩
    · refine ⟨by simp, ?_, ?_⟩
      · rw [List.getLast?_concat]
      · intro hno
        exact absurd rfl hno
    · refine ⟨by simp, ?_, ?_⟩
      · rw [List.getLast?_concat]
      · intro hno
        exact absurd rfl hno

theorem severityAll_init (schema : Dict) (profile : String) (sev : String) :
    SeverityAll sev (initDiagnostics schema profile).details := by
  intro s fs hmem f hf
  simp only [initDiagnostics, List.mem_cons, List.not_mem_nil, or_false]
    at hmem
  rcases hmem with h1 | h1 | h1 <;>
    (obtain ⟨rfl, rfl⟩ := Prod.mk.injEq .. ▸ h1;
     exact absurd hf (List.not_mem_nil f))

theorem strict_contains_iff (profile : String) :
    ((["debug_strict"] : List String).contains profile = true) ↔
      profile = "debug_strict" := by
  constructor
  · intro hc
    have hm : profile ∈ (["debug_strict"] : List String) :=
      List.mem_of_elem_eq_true hc
    simpa using hm
  · intro hp
    subst hp
    rfl

/-- When the sweep completes without an exception, the result of the run is
the status decision applied to the swept diagnostics. -/
theorem runMain_eq_of_sweep_none (schema : Dict) (profile : String)
    (bundle : List (String × List YVal)) (d : Diagnostics)
    (hsw : sweepBundle schema profile
      ((["debug_strict"] : List String).contains profile) bundle
      (initDiagnostics schema profile) = (d, none)) :
    runMain schema profile bundle =
      (if 0 < d.summary.errors then
        { artifacts := ["config.yaml", "diagnostics.yaml"],
          diagnostics :=
            { d with summary := { d.summary with status := "failed" } },
          outcome := RunOutcome.schemaAbort }
       else if 0 < d.summary.warnings then
        { artifacts := ["config.yaml"] ++
            bundle.map (fun p => p.1 ++ ".csv") ++ ["diagnostics.yaml"],
          diagnostics :=
            { d with summary := { d.summary with status := "degraded" } },
          outcome := RunOutcome.success }
       else
        { artifacts := ["config.yaml"] ++
            bundle.map (fun p => p.1 ++ ".csv") ++ ["diagnostics.yaml"],
          diagnostics :=
            { d with summary := { d.summary with status := "success" } },
          outcome := RunOutcome.success }) := by
  simp only [runMain, hsw, setStatus]
  split_ifs <;> rfl

/-- C2: whenever the validation sweep completes without an exception, the
run-level status is derived from the counters (`failed` when the error count
is positive, else `degraded` when the warning count is positive, else
`success`); positive errors suppress the tabular artifacts (only the
configuration copy and the diagnostics report are written) and abort the
run; and every finding's severity is `error` exactly when the active profile
lies in the strict set, currently exactly `debug_strict`, and `warning` for
every other profile. -/
theorem runMain_status_and_severity (schema : Dict) (profile : String)
    (bundle : List (String × List YVal))
    (h : (sweepBundle schema profile
        ((["debug_strict"] : List String).contains profile) bundle
        (initDiagnostics schema profile)).2 = none) :
    ((runMain schema profile bundle).diagnostics.summary.status =
      (if 0 < (runMain schema profile bundle).diagnostics.summary.errors
       then "failed"
       else if 0 < (runMain schema profile bundle).diagnostics.summary.warnings
       then "degraded" else "success")) ∧
    (0 < (runMain schema profile bundle).diagnostics.summary.errors →
      (runMain schema profile bundle).artifacts =
        ["config.yaml", "diagnostics.yaml"] ∧
      (runMain schema profile bundle).outcome = RunOutcome.schemaAbort) ∧
    (∀ s fs, (s, fs) ∈ (runMain schema profile bundle).diagnostics.details →
      ∀ f ∈ fs, f.severity =
        (if profile = "debug_strict" then "error" else "warning")) := by
  have hsevstr :
      (if (["debug_strict"] : List String).contains profile then "error"
        else "warning") =
      (if profile = "debug_strict" then "error" else "warning") := by
    by_cases hp : profile = "debug_strict"
    · rw [if_pos hp, if_pos ((strict_contains_iff profile).mpr hp)]
    · rw [if_neg hp,
        if_neg (fun hc => hp ((strict_contains_iff profile).mp hc))]
  have hsev := severityAll_sweepBundle schema profile
    ((["debug_strict"] : List String).contains profile) bundle
    (initDiagnostics schema profile)
    (severityAll_init schema profile _)
  rw [hsevstr] at hsev
  obtain ⟨d, hsw⟩ : ∃ d, sweepBundle schema profile
      ((["debug_strict"] : List String).contains profile) bundle
      (initDiagnostics schema profile) = (d, none) := by
    refine ⟨(sweepBundle schema profile
      ((["debug_strict"] : List String).contains profile) bundle
      (initDiagnostics schema profile)).1, ?_⟩
    conv_lhs => rw [← Prod.mk.eta (p := sweepBundle schema profile
      ((["debug_strict"] : List String).contains profile) bundle
      (initDiagnostics schema profile))]
    rw [h]
  rw [hsw] at hsev
  rw [runMain_eq_of_sweep_none schema profile bundle d hsw]
  by_cases h1 : 0 < d.summary.errors
  · rw [if_pos h1]
    refine ⟨?_, fun _ => ⟨rfl, rfl⟩, ?_⟩
    · dsimp only
      rw [if_pos h1]
    · intro s fs hmem f hf
      exact hsev s fs hmem f hf
  · rw [if_neg h1]
    by_cases h2 : 0 < d.summary.warnings
    · rw [if_pos h2]
      refine ⟨?_, fun hcon => absurd hcon h1, ?_⟩
      · dsimp only
        rw [if_neg h1, if_pos h2]
      · intro s fs hmem f hf
        exact hsev s fs hmem f hf
    · rw [if_neg h2]
      refine ⟨?_, fun hcon => absurd hcon h1, ?_⟩
      · dsimp only
        rw [if_neg h1, if_neg h2]
      · intro s fs hmem f hf
        exact hsev s fs hmem f hf

/-- Witness for C2: one balance-sheet record missing `total_assets` under the
non-strict `default` profile yields a warning and the `degraded` status. -/
theorem runMain_status_and_severity_witness :
    (runMain exampleSchema "default"
      [("balance_sheet", [YVal.map exampleRecord])]).diagnostics.summary.status
      = "degraded" ∧
    ((runMain exampleSchema "default"
        [("balance_sheet", [YVal.map exampleRecord])]).diagnostics.summary.status =
      (if 0 < (runMain exampleSchema "default"
          [("balance_sheet", [YVal.map exampleRecord])]).diagnostics.summary.errors
       then "failed"
       else if 0 < (runMain exampleSchema "default"
          [("balance_sheet", [YVal.map exampleRecord])]).diagnostics.summary.warnings
       then "degraded" else "success")) := by
  refine ⟨rfl, ?_⟩
  exact (runMain_status_and_severity exampleSchema "default"
    [("balance_sheet", [YVal.map exampleRecord])] (by rfl)).1

/-- A Python runtime value as seen by `_deep_merge`: dictionaries are mutable
heap objects referenced by address; every other value (scalars, and lists,
which the merge never mutates but only re-references) is an opaque immutable
atom.  `isinstance(value, dict)` holds exactly of `dref`. -/
inductive PVal where
  | atom (v : String) : PVal
  | dref (a : Nat) : PVal
deriving DecidableEq

/-- The body of one Python dictionary object. -/
abbrev PDict := List (String × PVal)

/-- The Python heap: addresses are list indices, allocation appends at the
end. -/
abbrev Heap := List PDict

/-- Dereference an address (empty body for a dangling address). -/
def heapGet (h : Heap) (a : Nat) : PDict := h.getD a []

/-- Overwrite the object at an address. -/
def heapSet (h : Heap) (a : Nat) (body : PDict) : Heap := h.set a body

/-- Key lookup in a dictionary body. -/
def pdictGet : PDict → String → Option PVal
  | [], _ => none
  | (k', v) :: rest, k => if k' = k then some v else pdictGet rest k

/-- In-place key assignment in a dictionary body. -/
def pdictSet : PDict → String → PVal → PDict
  | [], k, v => [(k, v)]
  | (k₀, v₀) :: rest, k, v =>
      if k₀ = k then (k, v) :: rest else (k₀, v₀) :: pdictSet rest k v

mutual

/-- The loop of `_deep_merge` over the entries of `override`, assigning into
the freshly allocated clone at address `c` (config.py lines 33-39), in the
heap model.  `fuel` bounds the recursion depth (a Python run on a cyclic
heap would not terminate either); every call consumes one unit. -/
def pdictMergeGo : Nat → List (String × PVal) → Heap → Nat → Option Heap
  | 0, _, _, _ => none
  | _ + 1, [], h, _ => some h
  | fuel + 1, (k, v) :: rest, h, c =>
      match pdictGet (heapGet h c) k, v with
      | some (PVal.dref m), PVal.dref m2 =>
          match deep_merge_heap fuel h m m2 with
          | none => none
          | some (h1, r) =>
              pdictMergeGo fuel rest
                (heapSet h1 c (pdictSet (heapGet h1 c) k (PVal.dref r))) c
      | _, _ =>
          pdictMergeGo fuel rest (heapSet h c (pdictSet (heapGet h c) k v)) c

/-- `_deep_merge(base, override)` in the heap model (config.py lines 22-40):
`dict(base)` allocates a fresh shallow copy of the base body at the next
address, the loop assigns into that clone, and the clone's address is the
return value. -/
def deep_merge_heap : Nat → Heap → Nat → Nat → Option (Heap × Nat)
  | 0, _, _, _ => none
  | fuel + 1, h, b, o =>
      match pdictMergeGo fuel (heapGet h o) (h ++ [heapGet h b]) h.length with
      | none => none
      | some h2 => some (h2, h.length)

end

theorem heapGet_append_lt (h : Heap) (l : Heap) (i : Nat)
    (hi : i < h.length) : heapGet (h ++ l) i = heapGet h i := by
  unfold heapGet
  exact List.getD_append _ _ _ _ hi

theorem heapGet_set_ne (h : Heap) (c : Nat) (x : PDict) (i : Nat)
    (hic : i ≠ c) : heapGet (heapSet h c x) i = heapGet h i := by
  unfold heapGet heapSet
  rw [List.getD_eq_getElem?_getD, List.getD_eq_getElem?_getD,
    List.getElem?_set_ne (fun hh => hic hh.symm)]

/-- Joint frame property of the heap merge: the heap only grows, every
pre-existing object other than the clone being built is untouched, and the
returned address is the first fresh one. -/
theorem merge_heap_frame (fuel : Nat) :
    (∀ h b o h' r, deep_merge_heap fuel h b o = some (h', r) →
      h.length ≤ h'.length ∧
      (∀ i, i < h.length → heapGet h' i = heapGet h i) ∧ r = h.length) ∧
    (∀ entries h c h', pdictMergeGo fuel entries h c = some h' →
      h.length ≤ h'.length ∧
      (∀ i, i < h.length → i ≠ c → heapGet h' i = heapGet h i)) := by
  induction fuel with
  | zero =>
    constructor
    · intro h b o h' r hm
      exact Option.noConfusion hm
    · intro entries h c h' hm
      exact Option.noConfusion hm
  | succ fuel ih =>
    obtain ⟨ihP, ihQ⟩ := ih
    constructor
    · intro h b o h' r hm
      simp only [deep_merge_heap] at hm
      cases hgo : pdictMergeGo fuel (heapGet h o) (h ++ [heapGet h b])
          h.length with
      | none => rw [hgo] at hm; exact Option.noConfusion hm
      | some h2 =>
        rw [hgo] at hm
        injection hm with hm
        obtain ⟨rfl, rfl⟩ : h2 = h' ∧ h.length = r := by
          constructor
          · exact congrArg Prod.fst hm
          · exact congrArg Prod.snd hm
        obtain ⟨hlen, hframe⟩ := ihQ _ _ _ _ hgo
        rw [List.length_append, List.length_singleton] at hlen
        refine ⟨by omega, ?_, rfl⟩
        intro i hi
        have e1 := hframe i (by rw [List.length_append]; omega) (by omega)
        rw [e1, heapGet_append_lt _ _ _ hi]
    · intro entries h c h' hm
      cases entries with
      | nil =>
        simp only [pdictMergeGo] at hm
        injection hm with hm
        subst hm
        exact ⟨le_refl _, fun i _ _ => rfl⟩
      | cons e rest =>
        obtain ⟨k, v⟩ := e
        simp only [pdictMergeGo] at hm
        split at hm
        next m m2 heq =>
          cases hdm : deep_merge_heap fuel h m m2 with
          | none => rw [hdm] at hm; exact Option.noConfusion hm
          | some pr =>
            obtain ⟨h1, r⟩ := pr
            rw [hdm] at hm
            obtain ⟨hlen1, hframe1, -⟩ := ihP _ _ _ _ _ hdm
            obtain ⟨hlen2, hframe2⟩ := ihQ _ _ _ _ hm
            simp only [heapSet, List.length_set] at hlen2
            refine ⟨le_trans hlen1 hlen2, ?_⟩
            intro i hi hic
            have e2 := hframe2 i
              (by simp only [heapSet, List.length_set]; omega) hic
            rw [e2, heapGet_set_ne _ _ _ _ hic, hframe1 i hi]
        next =>
          obtain ⟨hlen, hframe⟩ := ihQ _ _ _ _ hm
          simp only [heapSet, List.length_set] at hlen
          refine ⟨hlen, ?_⟩
          intro i hi hic
          have e2 := hframe i
            (by simp only [heapSet, List.length_set]; exact hi) hic
          rw [e2, heapGet_set_ne _ _ _ _ hic]

/-- C9: `_deep_merge` is non-mutating: when the merge of the dictionaries at
addresses `b` (base) and `o` (override) completes, both input objects are
bit-for-bit unchanged on the final heap, and the result is a freshly
allocated mapping (the first fresh address), distinct from both inputs. -/
theorem deep_merge_heap_non_mutating (fuel : Nat) (h h' : Heap) (b o r : Nat)
    (hb : b < h.length) (ho : o < h.length)
    (hm : deep_merge_heap fuel h b o = some (h', r)) :
    heapGet h' b = heapGet h b ∧ heapGet h' o = heapGet h o ∧
    r = h.length ∧ r ≠ b ∧ r ≠ o := by
  obtain ⟨-, hframe, hr⟩ := (merge_heap_frame fuel).1 h b o h' r hm
  exact ⟨hframe b hb, hframe o ho, hr, by omega, by omega⟩

/-- Witness for C9: merging the one-entry dictionary at address 0 with the
one at address 1 leaves both untouched and allocates the result at the fresh
address 2. -/
theorem deep_merge_heap_non_mutating_witness :
    deep_merge_heap 3 [[("x", PVal.atom "1")], [("x", PVal.atom "2")]] 0 1 =
      some ([[("x", PVal.atom "1")], [("x", PVal.atom "2")],
        [("x", PVal.atom "2")]], 2) ∧
    heapGet [[("x", PVal.atom "1")], [("x", PVal.atom "2")],
        [("x", PVal.atom "2")]] 0 =
      heapGet [[("x", PVal.atom "1")], [("x", PVal.atom "2")]] 0 ∧
    heapGet [[("x", PVal.atom "1")], [("x", PVal.atom "2")],
        [("x", PVal.atom "2")]] 1 =
      heapGet [[("x", PVal.atom "1")], [("x", PVal.atom "2")]] 1 ∧
    (2 : Nat) ≠ 0 ∧ (2 : Nat) ≠ 1 := by
  have heval : deep_merge_heap 3
      [[("x", PVal.atom "1")], [("x", PVal.atom "2")]] 0 1 =
      some ([[("x", PVal.atom "1")], [("x", PVal.atom "2")],
        [("x", PVal.atom "2")]], 2) := by rfl
  have hc := deep_merge_heap_non_mutating 3
    [[("x", PVal.atom "1")], [("x", PVal.atom "2")]]
    [[("x", PVal.atom "1")], [("x", PVal.atom "2")], [("x", PVal.atom "2")]]
    0 1 2 (by decide) (by decide) heval
  exact ⟨heval, hc.1, hc.2.1, hc.2.2.2.1, hc.2.2.2.2⟩

end BackTester
